import Mathlib

/-!
# Verification of the `breaks` work/idle tracker

A shallow embedding of the two source files of the repository:

* `src/hours.rs`  — the duration codec (`parseme`, `tostring`);
* `src/main.rs`   — the `Break` rule, the `Config`, the scheduler `State`
  with its per-tick `update`, and the prompt acknowledgment.

Modelling conventions, stated once here:

* Rust `Duration` is modelled at nanosecond granularity by `Nat` in the
  codec (the unit produced by `Duration::from_secs_f64`), and at
  whole-second granularity by `Nat` in the scheduler (every constant in
  the scheduler and in the claims is a whole number of seconds, and all
  scheduler arithmetic is unit-uniform, so the second-granularity model
  is exact for them).
* Rust `Instant` is modelled by `Nat` (nanoseconds/seconds since some
  epoch).  `Instant::duration_since` saturates at zero in Rust, which is
  exactly truncated `Nat` subtraction.  `Instant - Duration` panics on
  underflow in Rust; theorems that use it carry the hypothesis that the
  subtraction does not underflow.
* `f64` values are modelled as IEEE-754 binary64 numbers: a finite value
  is carried as an exact fraction that is kept on the binary64 grid by
  `flRound`, which rounds an exact rational to the nearest representable
  double (ties to even, overflow to the infinity, gradual underflow in
  the subnormal range).  `flRound` is applied to the parsed decimal
  value and to the exact result of every arithmetic operation — exactly
  the places where Rust's `f64` rounds.  `NaN` and the infinities are
  explicit extra constructors.
* `Duration::from_secs_f64` panics when its argument is negative, not
  finite, or at least `2^64` seconds; otherwise it rounds to the nearest
  nanosecond, ties to even.  The panic is modelled as an explicit result
  constructor.
* External effects (text-to-speech, stdout flushing) are omitted: they
  do not influence any field of the state.  The idle-time query and the
  meeting detector are inputs of the tick.
-/

namespace Breaks

/-! ## Decimal digits

Rust's `{}` formatting of an unsigned integer prints its decimal digits;
we model it via `Nat.digits`. -/

/-- The character for a single decimal digit value. -/
def digitChar (d : Nat) : Char := Char.ofNat (48 + d)

/-- Little-endian base-10 digits of `n`, computed with explicit fuel so
that the kernel can evaluate it (shown equal to `Nat.digits 10` below). -/
def digitsAux : Nat → Nat → List Nat
  | _, 0 => []
  | 0, _ + 1 => []
  | fuel + 1, n + 1 => ((n + 1) % 10) :: digitsAux fuel ((n + 1) / 10)

/-- Decimal representation of a natural number as characters
(most significant digit first); model of Rust `format!("{n}")`. -/
def natToChars (n : Nat) : List Char :=
  if n = 0 then ['0'] else ((digitsAux n n).map digitChar).reverse

/-- Numeric value of a list of decimal digit characters, accumulating
left to right (model of parsing the integral part of a number). -/
def natOfDigits (l : List Char) : Nat :=
  l.foldl (fun a c => 10 * a + (c.toNat - 48)) 0

/-! ## `tostring` (src/hours.rs, lines 141-154) -/

/-- Rust `format!("{minutes:02}")`: zero-pad the decimal representation
to width two. -/
def pad2 (l : List Char) : List Char :=
  if l.length < 2 then List.replicate (2 - l.length) '0' ++ l else l

/-- The `match (hours, minutes)` of `tostring`, producing the characters
of the result string. -/
def renderHM (hours minutes : Nat) : List Char :=
  match hours, minutes with
  | 0, 0 => "0 minutes".data
  | 1, 0 => natToChars 1 ++ " hour".data
  | _, 0 => natToChars hours ++ " hours".data
  | 0, 1 => natToChars 1 ++ " minute".data
  | 0, _ => natToChars minutes ++ " minutes".data
  | _, _ => natToChars hours ++ ':' :: pad2 (natToChars minutes)

/-- The body of `tostring` on a whole number of seconds (`x.as_secs()` in the
source). -/
def tostringSecs (secs : Nat) : String :=
  let minutes := secs / 60
  let hours := minutes / 60
  let minutes2 := minutes - hours * 60
  String.mk (renderHM hours minutes2)

/-- Model of `fn tostring(x: Duration) -> String` of src/hours.rs; the argument
is the duration in nanoseconds, and `as_secs` truncates to seconds. -/
def tostring (nanos : Nat) : String :=
  tostringSecs (nanos / 1000000000)

/-! ## `f64` values and `f64::from_str`

An `f64` produced by parsing is a finite binary64 number carried as an
exact fraction, or `NaN`, or a signed infinity.  The grammar below is
the one documented for Rust's `impl FromStr for f64`:
`Sign? ( 'inf' | 'infinity' | 'nan' | Number )` with
`Number ::= Digit+ '.'? Digit* Exp? | '.' Digit+ Exp?` and
`Exp ::= ('e'|'E') Sign? Digit+`, keywords case-insensitive. -/

/-- An exact rational represented as an unnormalized fraction
`num / den` (`den` is positive for every fraction built below).  Using
an explicit pair instead of `Rat` keeps every operation kernel-reducible;
the rational value is recovered by `UFrac.toRat`. -/
structure UFrac where
  num : Int
  den : Nat
deriving DecidableEq, Repr

/-- The rational value of an unnormalized fraction. -/
def UFrac.toRat (f : UFrac) : Rat := f.num / (f.den : Rat)

/-- Embed a natural number. -/
def UFrac.ofNat (n : Nat) : UFrac := ⟨n, 1⟩

/-- Negation. -/
def UFrac.neg (f : UFrac) : UFrac := ⟨-f.num, f.den⟩

/-- Exact addition. -/
def UFrac.add (a b : UFrac) : UFrac :=
  ⟨a.num * b.den + b.num * a.den, a.den * b.den⟩

/-- Exact multiplication by a natural number. -/
def UFrac.mulNat (a : UFrac) (n : Nat) : UFrac := ⟨a.num * n, a.den⟩

/-- Exact multiplication by `10 ^ k`. -/
def UFrac.mulPow10 (a : UFrac) (k : Nat) : UFrac := ⟨a.num * 10 ^ k, a.den⟩

/-- Exact division by `10 ^ k`. -/
def UFrac.divPow10 (a : UFrac) (k : Nat) : UFrac := ⟨a.num, a.den * 10 ^ k⟩

/-- A parsed floating-point value. -/
inductive FVal where
  | num (f : UFrac)
  | nan
  | inf (neg : Bool)
deriving DecidableEq, Repr

/-! ### Rounding to the binary64 grid

Rust's `f64::from_str` returns the representable double nearest to the
exact decimal value, and every `f64` arithmetic operation rounds its
exact result to the nearest representable double, ties to even.  A
finite positive double is `m * 2^u` with `m < 2^53` and `u ≥ -1074`;
rounded values of `2^1024` or more overflow to the infinity. -/

/-- Floor of the base-2 logarithm of `n` (for `n ≥ 1`), computed with
explicit fuel so that the kernel can evaluate it; `log2F_correct` below
characterizes it. -/
def log2F : Nat → Nat → Nat
  | _, 0 => 0
  | _, 1 => 0
  | 0, _ + 2 => 0
  | fuel + 1, n + 2 => log2F fuel ((n + 2) / 2) + 1

/-- Round the fraction `n / d` (with `d ≥ 1`) to the nearest integer,
ties to the even integer. -/
def roundHalfEven (n d : Nat) : Nat :=
  if d < 2 * (n % d) then n / d + 1
  else if 2 * (n % d) < d then n / d
  else if n / d % 2 = 0 then n / d else n / d + 1

/-- Floor of the base-2 logarithm of the positive rational `n / d`. -/
def qlog2 (n d : Nat) : Int :=
  let t : Int := (log2F n n : Int) - (log2F d d : Int)
  if 0 ≤ t then (if d * 2 ^ t.toNat ≤ n then t else t - 1)
  else (if d ≤ n * 2 ^ (-t).toNat then t else t - 1)

/-- The exponent of the unit in the last place of the double nearest to
`n / d`: 52 below the leading bit, clamped at the subnormal range. -/
def flExp (n d : Nat) : Int := max (qlog2 n d - 52) (-1074)

/-- The significand of `n / d`: the value scaled to the ulp grid of its
binade and rounded to the nearest integer, ties to even. -/
def flMant (n d : Nat) : Nat :=
  if 0 ≤ flExp n d then roundHalfEven n (d * 2 ^ (flExp n d).toNat)
  else roundHalfEven (n * 2 ^ (-flExp n d).toNat) d

/-- The binary64 value nearest to the positive rational `n / d` (ties to
even), as an exact fraction; rounded values of `2^1024` or more give the
infinity. -/
def flRoundPos (n d : Nat) : FVal :=
  if 0 ≤ flExp n d then
    if 2 ^ 1024 ≤ flMant n d * 2 ^ (flExp n d).toNat then .inf false
    else .num ⟨(flMant n d * 2 ^ (flExp n d).toNat : Nat), 1⟩
  else .num ⟨(flMant n d : Nat), 2 ^ (-flExp n d).toNat⟩

/-- Round an exact rational to the binary64 grid: the nearest
representable double, ties to even, overflow giving the signed
infinity.  When the value is already representable the input fraction
is returned unchanged (the rounded value is compared with the input by
cross-multiplication), so that exact operations keep their
representation. -/
def flRound (q : UFrac) : FVal :=
  if q.num = 0 ∨ q.den = 0 then .num q
  else if 0 < q.num then
    match flRoundPos q.num.toNat q.den with
    | .num r => if r.num * (q.den : Int) = q.num * (r.den : Int) then .num q
                else .num r
    | v => v
  else
    match flRoundPos (-q.num).toNat q.den with
    | .num r => if r.num * (q.den : Int) = -q.num * (r.den : Int) then .num q
                else .num r.neg
    | .inf _ => .inf true
    | .nan => .nan

/-- Strip one optional leading sign, returning whether it was `-`. -/
def stripSign : List Char → Bool × List Char
  | [] => (false, [])
  | c :: r =>
    if c = '+' then (false, r)
    else if c = '-' then (true, r)
    else (false, c :: r)

/-- Exponent part after the `e`/`E`: optional sign then digits,
consuming the whole rest of the input. -/
def parseExp (l : List Char) : Option (Bool × Nat) :=
  let (neg, r) := stripSign l
  let ds := r.takeWhile Char.isDigit
  let r2 := r.dropWhile Char.isDigit
  if ds.isEmpty || !r2.isEmpty then none else some (neg, natOfDigits ds)

/-- Assemble a number from integral digits `ds`, fractional digits `fs`
and the remaining input `r` (which may only be an exponent). -/
def mkNum (ds fs r : List Char) : Option UFrac :=
  if ds.isEmpty && fs.isEmpty then none
  else
    let m : UFrac :=
      (UFrac.ofNat (natOfDigits ds)).add
        ((UFrac.ofNat (natOfDigits fs)).divPow10 fs.length)
    match r with
    | [] => some m
    | e :: r2 =>
      if e = 'e' ∨ e = 'E' then
        (parseExp r2).map fun p => if p.1 then m.divPow10 p.2 else m.mulPow10 p.2
      else none

/-- The `Number` production: digits, optional `.` and fractional digits,
optional exponent. -/
def parseNumber (l : List Char) : Option UFrac :=
  let ds := l.takeWhile Char.isDigit
  match l.dropWhile Char.isDigit with
  | '.' :: r2 => mkNum ds (r2.takeWhile Char.isDigit) (r2.dropWhile Char.isDigit)
  | r => mkNum ds [] r

/-- Model of Rust `str::parse::<f64>` on a list of characters: the exact
decimal value is rounded to the nearest binary64 (huge values give the
infinity, as Rust's parser does). -/
def parse_f64L (l : List Char) : Option FVal :=
  let (neg, r) := stripSign l
  let low := r.map Char.toLower
  if low = "inf".data ∨ low = "infinity".data then some (.inf neg)
  else if low = "nan".data then some .nan
  else (parseNumber r).map fun f =>
    match flRound f with
    | .num f2 => .num (if neg then f2.neg else f2)
    | .inf _ => .inf neg
    | .nan => .nan

/-! ## `parseme` (src/hours.rs, lines 117-139) -/

/-- Result of `parseme` followed by `Duration::from_secs_f64`: a
duration in nanoseconds, a parse error (`Err(())` in the source), or a
panic raised by `from_secs_f64`. -/
inductive PResult where
  | ok (nanos : Nat)
  | err
  | panic
deriving DecidableEq, Repr

/-- Model of `Duration::from_secs_f64`: panics when the value is `NaN`, infinite,
negative or at least `2^64` seconds; otherwise converts to nanoseconds
rounding to the nearest, ties to even, as Rust's `try_from_secs_f64`
does (shown equal to `round` of the rational value when no tie arises,
`from_secs_f64_ok` below). -/
def from_secs_f64 (v : FVal) : PResult :=
  match v with
  | .nan => .panic
  | .inf _ => .panic
  | .num f =>
    if f.num < 0 then .panic
    else if (2 ^ 64 : Int) * f.den ≤ f.num then .panic
    else .ok (roundHalfEven (f.num.toNat * 1000000000) f.den)

/-- Multiplication of an `f64` by a positive integer constant (only used with
`60`): the exact product is rounded back to the binary64 grid, as IEEE
multiplication requires; infinities and `NaN` are preserved. -/
def fvMulNat (v : FVal) (n : Nat) : FVal :=
  match v with
  | .num f => flRound (f.mulNat n)
  | .nan => .nan
  | .inf s => .inf s

/-- Addition of two `f64` values: the exact sum is rounded back to the
binary64 grid, as IEEE addition requires (`NaN` absorbs, opposite
infinities give `NaN`). -/
def fvAdd : FVal → FVal → FVal
  | .num x, .num y => flRound (x.add y)
  | .nan, _ => .nan
  | _, .nan => .nan
  | .inf s, .num _ => .inf s
  | .num _, .inf s => .inf s
  | .inf s, .inf t => if s = t then .inf s else .nan

/-- Rust `char::is_whitespace`, restricted to the ASCII whitespace that
can occur in the strings this program handles. -/
def isWS (c : Char) : Bool := c = ' ' || c = '\t' || c = '\n' || c = '\r'

/-- Rust `str::trim` on a character list. -/
def trimL (l : List Char) : List Char :=
  ((l.dropWhile isWS).reverse.dropWhile isWS).reverse

/-- Rust `str::split_once(":")`: split at the first colon. -/
def splitOnceColon : List Char → Option (List Char × List Char)
  | [] => none
  | c :: r =>
    if c = ':' then some ([], r)
    else
      match splitOnceColon r with
      | some (a, b) => some (c :: a, b)
      | none => none

/-- Remove `p` as a prefix of `l`, if present. -/
def dropPre : List Char → List Char → Option (List Char)
  | l, [] => some l
  | [], _ :: _ => none
  | c :: l, p :: ps => if c = p then dropPre l ps else none

/-- Rust `str::strip_suffix`. -/
def stripSuffix (l suf : List Char) : Option (List Char) :=
  (dropPre l.reverse suf.reverse).map List.reverse

/-- The value `(hours * 60.0 + minutes) * 60.0` fed to `from_secs_f64`, the final
two lines of `parseme`. -/
def combine (hv mv : FVal) : PResult :=
  from_secs_f64 (fvMulNat (fvAdd (fvMulNat hv 60) mv) 60)

/-- Model of `fn parseme(v: &str) -> Result<Duration, ()>` of src/hours.rs (with
the `from_secs_f64` panic made explicit in the result). -/
def parsemeL (v : List Char) : PResult :=
  match splitOnceColon v with
  | some (h, m) =>
    match parse_f64L (trimL h), parse_f64L (trimL m) with
    | some hv, some mv => combine hv mv
    | _, _ => .err
  | none =>
    match stripSuffix v "h".data <|> stripSuffix v "hours".data
        <|> stripSuffix v "hour".data with
    | some h =>
      match parse_f64L (trimL h) with
      | some hv => combine hv (.num (UFrac.ofNat 0))
      | none => .err
    | none =>
      match stripSuffix v "m".data <|> stripSuffix v "minutes".data
          <|> stripSuffix v "minute".data with
      | some m =>
        match parse_f64L (trimL m) with
        | some mv => combine (.num (UFrac.ofNat 0)) mv
        | none => .err
      | none => .err

/-- The model of `parseme` applied to a `String`. -/
def parseme (v : String) : PResult := parsemeL v.data

/-! ## The scheduler (src/main.rs)

Durations and instants in the scheduler are whole seconds (see the file
header).  `main.rs` line 7 uses a trait `hours::Pretty` whose definition
is not among the source files of the repository. -/

/-- Modelled from the spec: the `Pretty` trait imported from the hours
module (`use hours::Pretty;` in src/main.rs) is not present in
src/hours.rs; per the spec, status text renders durations with the
Duration Codec `format`, so `pretty` of a whole-second duration is
`tostring` of it. -/
def pretty (secs : Nat) : String := tostringSecs secs

/-- Model of `struct Break` of src/main.rs (`prompt`, `after`, `last_done`). -/
structure Break where
  prompt : String
  after : Nat
  last_done : Nat
deriving DecidableEq, Repr

/-- Model of `Break::check`: fires when the accumulated work time strictly
exceeds `after + last_done` (the source takes `&mut self` but does not
mutate). -/
def Break.check (b : Break) (worktime : Nat) : Bool :=
  worktime > b.after + b.last_done

/-- Model of `struct Config` of src/main.rs (thresholds in seconds). -/
structure Config where
  max_idle_time_while_working : Nat
  workday : Nat
  day_resets_after : Nat
  just_started : Nat
  good_chunk_of_work : Nat
  minimum_time_between_breaks : Nat
  when_to_emphasize_break : Nat
  when_to_lock_screen : Nat
  breaks : List Break
deriving DecidableEq, Repr

/-- Model of `impl Default for Config` of src/main.rs. -/
def Config.default : Config where
  max_idle_time_while_working := 60 * 10
  workday := 60 * 60 * 8
  day_resets_after := 60 * 60 * 7
  just_started := 60 * 6
  good_chunk_of_work := 60 * 30
  minimum_time_between_breaks := 60 * 5
  when_to_emphasize_break := 60 * 2
  when_to_lock_screen := 60 * 10
  breaks :=
    [⟨"Time for a 7-minute exersize", 60 * 60 * 3, 0⟩,
     ⟨"Switch to standing desk", 60 * 60 * 4 + 60, 0⟩]

/-- Model of `enum Status` of src/main.rs. -/
inductive Status where
  | IdleSince (start : Nat)
  | WorkingSince (start : Nat)
deriving DecidableEq, Repr

/-- Model of `struct State` of src/main.rs.  The `tts` handle is an external
effect and carries no scheduling state, so it is omitted. -/
structure State where
  config : Config
  am_prompting : Option String
  status_report : String
  latest_update : String
  status : Status
  breaks : List Break
  screen_time : Nat
  last_prompt : Nat
  am_emphasizing : Bool
deriving DecidableEq, Repr

/-- The inputs consumed by one call of `State::update`: the outcome of
`idle_time()`, the `am_in_meet()` flag (sampled once per tick; the
source queries it up to three times within one tick, always under
conditions that make the repeated samples agree unless the external
state changes mid-tick), and `Instant::now()` (every `Instant::now()`
call within the tick is modelled as the same instant). -/
structure TickInput where
  idle : Except String Nat
  in_meet : Bool
  now : Nat
deriving Repr

/-- Accumulator of the `for b in self.breaks.iter_mut()` loop inside
`State::update`: the processed rules, the local `prompt` variable, and
the `last_prompt` / `status_report` fields the loop writes. -/
structure PassAcc where
  breaks : List Break
  prompt : Option String
  last_prompt : Nat
  status_report : String
deriving DecidableEq, Repr

/-- One iteration of the break-evaluation loop (src/main.rs lines
213-234).  `am_prompting` is the (loop-invariant) field read by the
`self.am_prompting.is_some()` test, `in_meet` the meeting flag, `total`
the `this_work + self.screen_time` value, `now` the tick instant. -/
def breakStep (cfg : Config) (am_prompting : Option String) (in_meet : Bool)
    (total now : Nat) (acc : PassAcc) (b : Break) : PassAcc :=
  if b.check total then
    let prompt_gap := now - acc.last_prompt
    if am_prompting.isSome then
      { acc with breaks := acc.breaks ++ [b],
                 status_report := "Postponing " ++ b.prompt ++ ", see above." }
    else if in_meet then
      { acc with breaks := acc.breaks ++ [b],
                 status_report := "Postponing " ++ b.prompt ++ " while you meet." }
    else if prompt_gap < cfg.minimum_time_between_breaks then
      { acc with breaks := acc.breaks ++ [b],
                 status_report := "Postponing " ++ b.prompt ++ " for " ++
                   pretty (cfg.minimum_time_between_breaks - prompt_gap) ++ "." }
    else
      { breaks := acc.breaks ++ [{ b with last_done := total }],
        prompt := some b.prompt,
        last_prompt := now,
        status_report := acc.status_report }
  else { acc with breaks := acc.breaks ++ [b] }

/-- Model of `State::update` (src/main.rs lines 182-267).  Fails exactly when the
idle-time query fails; stdout flushing is infallible in the model. -/
def State.update (s : State) (inp : TickInput) : Except String State :=
  let config := s.config
  match inp.idle with
  | .error e => .error e
  | .ok t =>
    let now := inp.now
    match s.status with
    | .WorkingSince start =>
      if t > config.max_idle_time_while_working && !inp.in_meet then
        let start_idle := now - t
        let screen_time := s.screen_time + (start_idle - start)
        .ok { s with
                screen_time := screen_time,
                status := .IdleSince start_idle,
                status_report :=
                  "After working " ++ pretty screen_time ++
                    " you are now AFK!" }
      else
        let this_work := now - start
        let s2 :=
          if this_work + s.screen_time > config.workday
              && now - s.last_prompt > config.just_started then
            { s with
                am_prompting := some ("End of day after " ++
                  pretty (this_work + s.screen_time)),
                last_prompt := now }
          else if (this_work < config.just_started
                || this_work > config.good_chunk_of_work)
              && s.am_prompting.isNone && !inp.in_meet then
            let acc := s.breaks.foldl
              (breakStep config s.am_prompting inp.in_meet
                (this_work + s.screen_time) now)
              ⟨[], none, s.last_prompt, s.status_report⟩
            let s3 := { s with
                          breaks := acc.breaks,
                          last_prompt := acc.last_prompt,
                          status_report := acc.status_report }
            match acc.prompt with
            | some p => { s3 with am_prompting := some p }
            | none => s3
          else s
        .ok { s2 with
                latest_update := "You\x27ve been working for " ++
                  pretty (this_work + s.screen_time) }
    | .IdleSince start =>
      let start_idle := now - t
      if start_idle - start > config.max_idle_time_while_working then
        .ok { s with
                status := .WorkingSince start_idle,
                status_report := "You resumed working after a " ++
                  pretty (start_idle - start) ++ " break." }
      else if t > config.day_resets_after && s.screen_time > 0 then
        .ok { s with
                status_report := "I think it is a new day.  Resetting.",
                screen_time := 0,
                breaks := s.breaks.map fun b => { b with last_done := 0 } }
      else
        .ok { s with
                latest_update := "You\x27ve been idle for " ++ pretty t }

/-- The `Done` button handler (src/main.rs lines 319-325): the prompt
acknowledgment, the only other mutator of the scheduler state. -/
def State.ack (s : State) : State :=
  let s2 := { s with am_emphasizing := false }
  match s2.am_prompting with
  | some prompt =>
    { s2 with
        am_prompting := none,
        status_report := "Well done with the " ++ prompt ++ "!" }
  | none => s2

/-- An operation on the scheduler state: a timer tick or a prompt
acknowledgment. -/
inductive Op where
  | tick (inp : TickInput)
  | ack

/-- Apply one operation.  A failed tick leaves the state unchanged: the
`?` return in `State::update` happens before any field is written (the
caller then aborts, so nothing further observes the state either way). -/
def applyOp (s : State) (op : Op) : State :=
  match op with
  | .tick inp =>
    match s.update inp with
    | .ok s2 => s2
    | .error _ => s
  | .ack => s.ack

/-- Apply a sequence of operations. -/
def run (s : State) (ops : List Op) : State := ops.foldl applyOp s

/-! ## Auxiliary definitions used only by the theorems -/

/-- The ten decimal digit characters. -/
def DIGITS : List Char := ['0', '1', '2', '3', '4', '5', '6', '7', '8', '9']

/-- The duration formatter as the spec states it, written from the
claim's words (hours and minutes truncated from total minutes;
`"0 minutes"` when both are zero; singular/plural `"N hour(s)"` when
minutes is zero and hours nonzero; singular/plural `"N minute(s)"` when
hours is zero; otherwise `"H:MM"` with the minutes zero-padded to two
digits).  Compared with the source-derived `tostring` in the theorem for
claim C6. -/
def formatSpec (nanos : Nat) : String :=
  let totalMinutes := nanos / 1000000000 / 60
  let hours := totalMinutes / 60
  let minutes := totalMinutes - hours * 60
  if hours = 0 ∧ minutes = 0 then "0 minutes"
  else if minutes = 0 then
    String.mk (natToChars hours) ++ (if hours = 1 then " hour" else " hours")
  else if hours = 0 then
    String.mk (natToChars minutes) ++
      (if minutes = 1 then " minute" else " minutes")
  else
    String.mk (natToChars hours) ++ ":" ++ String.mk (pad2 (natToChars minutes))

/-- A scheduler state over the default configuration with empty reports
and no pending prompt; used to build the concrete scenarios below. -/
def mkState (st : Status) (bs : List Break) (screen last_prompt : Nat) : State :=
  { config := Config.default
    am_prompting := none
    status_report := ""
    latest_update := ""
    status := st
    breaks := bs
    screen_time := screen
    last_prompt := last_prompt
    am_emphasizing := false }

/-- Concrete scenario: idle since instant 0 with one break rule whose
`last_done` is 100 and 5 seconds of accumulated screen time. -/
def sIdle : State := mkState (.IdleSince 0) [⟨"b", 3600, 100⟩] 5 0

/-- Concrete scenario: working since instant 0 with the two default
break rules and no accumulated screen time. -/
def sWork : State := mkState (.WorkingSince 0) Config.default.breaks 0 0

/-!
# Theorems

First the bridge between the fuel-based digit computation and
`Nat.digits`, then the claims C1-C10 in order of their subject matter.
-/

theorem digitsAux_eq_digits : ∀ (fuel n : Nat), n ≤ fuel →
    digitsAux fuel n = Nat.digits 10 n := by
  intro fuel
  induction fuel with
  | zero => intro n hn; interval_cases n; simp [digitsAux]
  | succ f ih =>
    intro n hn
    match n with
    | 0 => simp [digitsAux]
    | m + 1 =>
      rw [digitsAux, Nat.digits_def' (by norm_num) (Nat.succ_pos m)]
      congr 1
      exact ih _ (Nat.le_of_lt_succ (Nat.lt_of_lt_of_le
        (Nat.div_lt_self (Nat.succ_pos m) (by norm_num)) hn))

theorem natToChars_eq (n : Nat) :
    natToChars n = if n = 0 then ['0']
      else ((Nat.digits 10 n).map digitChar).reverse := by
  rw [natToChars, digitsAux_eq_digits n n le_rfl]

/-! ## Claim C10: a failed idle-time query fails the tick unchanged -/

/-- C10: if the idle-time query fails, `State::update` propagates that
error, and it does so before writing anything, so the caller's state is
unchanged (here: `applyOp` returns the state as it was); in particular
the failure is not treated as a zero idle sample. -/
theorem C10_idle_error_propagates (s : State) (inp : TickInput) (e : String)
    (h : inp.idle = .error e) :
    s.update inp = .error e ∧ applyOp s (.tick inp) = s := by
  have hu : s.update inp = .error e := by rw [State.update, h]
  exact ⟨hu, by rw [applyOp, hu]⟩

/-- Witness for C10 at a concrete state and failing input. -/
theorem C10_witness :
    State.update sIdle ⟨.error "io", false, 7⟩ = .error "io" ∧
      applyOp sIdle (.tick ⟨.error "io", false, 7⟩) = sIdle :=
  C10_idle_error_propagates sIdle ⟨.error "io", false, 7⟩ "io" rfl

/-! ## Claim C1: the Working-to-Idle transition -/

/-- C1: in state `WorkingSince start`, when the idle sample `t` exceeds
`max_idle_time_while_working` and the user is not in a meeting, the tick
computes `idle_start = now - t`, adds exactly `idle_start - start` to
`screen_time` (`duration_since`, saturating at zero), and moves to
`IdleSince idle_start`.  The hypothesis `t ≤ now` is the representability
condition of Rust's `now - t`. -/
theorem C1_working_to_idle (s : State) (inp : TickInput) (t start : Nat)
    (hst : s.status = .WorkingSince start)
    (hidle : inp.idle = .ok t)
    (hmax : t > s.config.max_idle_time_while_working)
    (hmeet : inp.in_meet = false)
    (hnow : t ≤ inp.now) :
    s.update inp = .ok { s with
        screen_time := s.screen_time + ((inp.now - t) - start),
        status := .IdleSince (inp.now - t),
        status_report := "After working " ++
          pretty (s.screen_time + ((inp.now - t) - start)) ++
          " you are now AFK!" } := by
  rw [State.update, hidle]
  rw [hst]
  simp [hmax, hmeet]

/-- Witness for C1: working since 0, idle sample of 11 minutes at
instant 7200 with the default 10-minute threshold. -/
theorem C1_witness :
    State.update sWork ⟨.ok 660, false, 7200⟩ = .ok { sWork with
        screen_time := sWork.screen_time + ((7200 - 660) - 0),
        status := .IdleSince (7200 - 660),
        status_report := "After working " ++
          pretty (sWork.screen_time + ((7200 - 660) - 0)) ++
          " you are now AFK!" } :=
  C1_working_to_idle sWork ⟨.ok 660, false, 7200⟩ 660 0 rfl rfl
    (by decide) rfl (by decide)

/-! ## Claim C3: the day reset -/

/-- C3 counterexample: the claim omits that the resume-work branch is
checked first.  Here `t = 25201 > day_resets_after = 25200` and
`screen_time = 5 > 0`, yet the tick resumes working (because
`(now - t) - start > max_idle_time_while_working`) and `screen_time`
stays `5` and the break's `last_done` stays `100`, while the claim says
they are zeroed. -/
theorem C3_counterexample :
    State.update sIdle ⟨.ok 25201, false, 100000⟩ = .ok { sIdle with
        status := .WorkingSince 74799,
        status_report := "You resumed working after a 20:46 break." } ∧
    sIdle.screen_time = 5 ∧
    sIdle.breaks = [⟨"b", 3600, 100⟩] := by
  refine ⟨by rfl, by decide, by decide⟩

/-- C3 as amended: in state `IdleSince start`, when the idle sample `t`
exceeds `day_resets_after`, `screen_time` is positive, **and the
resume-work branch does not fire first** (the recomputed idle start
`now - t` has not drifted more than `max_idle_time_while_working` past
`start`), the tick zeroes `screen_time`, resets every break's
`last_done` to zero and reports the reset. -/
theorem C3_day_reset (s : State) (inp : TickInput) (t start : Nat)
    (hst : s.status = .IdleSince start)
    (hidle : inp.idle = .ok t)
    (hday : t > s.config.day_resets_after)
    (hscreen : s.screen_time > 0)
    (hnoresume : (inp.now - t) - start ≤ s.config.max_idle_time_while_working)
    (hnow : t ≤ inp.now) :
    s.update inp = .ok { s with
        status_report := "I think it is a new day.  Resetting.",
        screen_time := 0,
        breaks := s.breaks.map fun b => { b with last_done := 0 } } := by
  rw [State.update, hidle]
  rw [hst]
  simp [Nat.not_lt.mpr hnoresume, hday, hscreen]

/-- Witness for C3 as amended: idle since 0 at instant 25201 with idle
sample 25201 (the whole gap), so the reset branch fires. -/
theorem C3_witness :
    State.update sIdle ⟨.ok 25201, false, 25201⟩ = .ok { sIdle with
        status_report := "I think it is a new day.  Resetting.",
        screen_time := 0,
        breaks := sIdle.breaks.map fun b => { b with last_done := 0 } } :=
  C3_day_reset sIdle ⟨.ok 25201, false, 25201⟩ 25201 0 rfl rfl
    (by decide) (by decide) (by decide) (by decide)

/-! ## Claim C2: when `check` fires -/

/-- C2 counterexample: the first three scenario values behave as the
claim says (false at 30 minutes of work, true at 61 minutes, false at 90
minutes after the acceptance set `last_done` to 3660 s), but at exactly
121 minutes the comparison of src/main.rs line 104 is
`7260 > 3600 + 3660`, i.e. `7260 > 7260`, which is `false` — the claim
asserts `check` returns `true` there, and the last conjunct states the
negation of exactly that assertion. -/
theorem C2_counterexample :
    Break.check ⟨"b", 3600, 0⟩ 1800 = false ∧
    Break.check ⟨"b", 3600, 0⟩ 3660 = true ∧
    Break.check ⟨"b", 3600, 3660⟩ 5400 = false ∧
    ¬ Break.check ⟨"b", 3600, 3660⟩ 7260 = true := by decide

/-- C2 as amended: `check` fires exactly when the accumulated work time
strictly exceeds `after + last_done` (first conjunct, the claim's own
general law); consequently, with `after` one hour and `last_done` 3660 s
it fires exactly for work time strictly beyond 121 minutes (second
conjunct).  With `last_done` zero `check` is false at 30 minutes and
true at 61 minutes; after acceptance at 61 minutes it is false at 90
minutes, still false at exactly 121 minutes, and true at 121 minutes
plus one second. -/
theorem C2_check_iff :
    (∀ (b : Break) (w : Nat), b.check w = true ↔ b.after + b.last_done < w) ∧
    (∀ w : Nat, Break.check ⟨"b", 3600, 3660⟩ w = true ↔ 7260 < w) ∧
    Break.check ⟨"b", 3600, 0⟩ 1800 = false ∧
    Break.check ⟨"b", 3600, 0⟩ 3660 = true ∧
    Break.check ⟨"b", 3600, 3660⟩ 5400 = false ∧
    Break.check ⟨"b", 3600, 3660⟩ 7260 = false ∧
    Break.check ⟨"b", 3600, 3660⟩ 7261 = true := by
  refine ⟨fun b w => ?_, fun w => ?_, by decide, by decide, by decide,
    by decide, by decide⟩
  · simp [Break.check]
  · simp only [Break.check, decide_eq_true_eq]

/-- Witness for the general part of C2's law at the 61-minute sample. -/
theorem C2_witness :
    Break.check ⟨"b", 3600, 0⟩ 3660 = true ↔ (3600 : Nat) + 0 < 3660 :=
  C2_check_iff.1 ⟨"b", 3600, 0⟩ 3660

/-! ## Claim C6: the shape of `tostring` -/

theorem mk_append_mk (l1 l2 : List Char) :
    String.mk l1 ++ String.mk l2 = String.mk (l1 ++ l2) := rfl

theorem renderHM_eq (h m : Nat) :
    String.mk (renderHM h m) =
      if h = 0 ∧ m = 0 then "0 minutes"
      else if m = 0 then
        String.mk (natToChars h) ++ (if h = 1 then " hour" else " hours")
      else if h = 0 then
        String.mk (natToChars m) ++ (if m = 1 then " minute" else " minutes")
      else
        String.mk (natToChars h) ++ ":" ++ String.mk (pad2 (natToChars m)) := by
  rcases h with _ | _ | h <;> rcases m with _ | _ | m <;>
    simp [renderHM, mk_append_mk] <;>
    first
      | rfl
      | exact congrArg String.mk (by simp)

/-- C6: `tostring` agrees everywhere with the formatter as the spec
describes it (`formatSpec`, written from the claim's words), and takes
the five claimed values. -/
theorem C6_format_characterization :
    (∀ d : Nat, tostring d = formatSpec d) ∧
    tostring 0 = "0 minutes" ∧
    tostring (60 * 1000000000) = "1 minute" ∧
    tostring (120 * 1000000000) = "2 minutes" ∧
    tostring (3 * 3600 * 1000000000) = "3 hours" ∧
    tostring ((3 * 3600 + 120) * 1000000000) = "3:02" := by
  refine ⟨fun d => ?_, by decide, by decide, by decide, by decide, by decide⟩
  simp only [tostring, tostringSecs, formatSpec]
  exact renderHM_eq _ _

/-! ## Claim C9: `parseme` on malformed input -/

/-- C9: the code does **not** always return a parse error on malformed
but well-typed input: a negative or non-finite numeric component reaches
`Duration::from_secs_f64`, which panics.  Concretely `"-2m"` parses its
component to `-2.0` and panics on `from_secs_f64(-120.0)`, and
`"nan m"` likewise; a shape error such as `"xyz"` does return `Err`. -/
theorem C9_negative_duration_panics :
    parseme "-2m" = .panic ∧ parseme "nan m" = .panic ∧
      parseme "xyz" = .err := by
  refine ⟨by decide, by decide, by decide⟩

/-! ## Claim C5: a second rule firing in the same pass -/

/-- C5 counterexample: working since 0 at instant 15000 with the default
rules, both break rules fire in one pass.  The first is accepted; the
second is indeed postponed with `last_done` unchanged, but the status
report is the **cooldown** message (the acceptance just set
`last_prompt` to `now`, so the gap is zero), not the claimed
already-prompting message: the `am_prompting.is_some()` test inside the
loop reads a field that is only written after the loop, so it cannot
observe the prompt accepted in the same pass. -/
theorem C5_counterexample :
    State.update sWork ⟨.ok 0, false, 15000⟩ = .ok { sWork with
        am_prompting := some "Time for a 7-minute exersize",
        status_report := "Postponing Switch to standing desk for 5 minutes.",
        latest_update := "You\x27ve been working for 4:10",
        breaks := [⟨"Time for a 7-minute exersize", 10800, 15000⟩,
                   ⟨"Switch to standing desk", 14460, 0⟩],
        last_prompt := 15000 } ∧
    "Postponing Switch to standing desk for 5 minutes." ≠
      "Postponing Switch to standing desk, see above." := by
  refine ⟨by rfl, by decide⟩

/-- C5 as amended: during a Working-state break-evaluation pass (entered
with no pending prompt and not in a meeting), when a rule fires after an
earlier rule of the same pass has been accepted (so the accumulator
holds a pending prompt and `last_prompt` was just set to `now`) and
`minimum_time_between_breaks` is positive, the rule is not fired: its
`last_done` is left unchanged so it remains armed, the earlier prompt is
kept, and the status report is the **cooldown** postponement message
citing the rule and the full `minimum_time_between_breaks` as the
remaining wait (the already-prompting message is unreachable within a
pass). -/
theorem C5_same_pass_postponement (cfg : Config) (total now : Nat)
    (acc : PassAcc) (b : Break)
    (hpending : acc.prompt.isSome = true)
    (hlp : acc.last_prompt = now)
    (hfire : b.check total = true)
    (hmin : 0 < cfg.minimum_time_between_breaks) :
    breakStep cfg none false total now acc b =
      { acc with
          breaks := acc.breaks ++ [b],
          status_report := "Postponing " ++ b.prompt ++ " for " ++
            pretty cfg.minimum_time_between_breaks ++ "." } := by
  rw [breakStep]
  simp [hfire, hlp, hmin]

/-- Witness for C5 as amended: the accumulator state reached after the
first default rule was accepted at instant 15000, evaluating the second
default rule. -/
theorem C5_witness :
    breakStep Config.default none false 15000 15000
        ⟨[⟨"Time for a 7-minute exersize", 10800, 15000⟩],
         some "Time for a 7-minute exersize", 15000, ""⟩
        ⟨"Switch to standing desk", 14460, 0⟩ =
      ⟨[⟨"Time for a 7-minute exersize", 10800, 15000⟩,
        ⟨"Switch to standing desk", 14460, 0⟩],
       some "Time for a 7-minute exersize", 15000,
       "Postponing Switch to standing desk for 5 minutes."⟩ :=
  C5_same_pass_postponement Config.default 15000 15000 _ _ rfl rfl
    (by decide) (by decide)

/-! ## Claim C4: how `last_done` evolves -/

theorem breakStep_breaks (cfg : Config) (am : Option String) (meet : Bool)
    (total now : Nat) (acc : PassAcc) (b : Break) :
    ∃ b2, (breakStep cfg am meet total now acc b).breaks = acc.breaks ++ [b2] ∧
      (b2 = b ∨ (b2 = { b with last_done := total } ∧ b.check total = true)) := by
  simp only [breakStep]
  split_ifs <;>
    first
      | exact ⟨b, rfl, Or.inl rfl⟩
      | exact ⟨{ b with last_done := total }, rfl, Or.inr ⟨rfl, by assumption⟩⟩

theorem foldl_breakStep_rel (cfg : Config) (am : Option String) (meet : Bool)
    (total now : Nat) :
    ∀ (bs : List Break) (acc : PassAcc), ∃ tail,
      (bs.foldl (breakStep cfg am meet total now) acc).breaks =
        acc.breaks ++ tail ∧
      List.Forall₂ (fun b b2 => b2 = b ∨
        (b2 = { b with last_done := total } ∧ b.check total = true)) bs tail := by
  intro bs
  induction bs with
  | nil => exact fun acc => ⟨[], by simp, List.Forall₂.nil⟩
  | cons b bs ih =>
    intro acc
    obtain ⟨b2, hb2, hrel⟩ := breakStep_breaks cfg am meet total now acc b
    obtain ⟨tail, htail, hrel2⟩ := ih (breakStep cfg am meet total now acc b)
    refine ⟨b2 :: tail, ?_, List.Forall₂.cons hrel hrel2⟩
    rw [List.foldl_cons, htail, hb2, List.append_assoc]
    rfl

/-- How one successful tick changes the list of break rules: either not
at all, or (Working state) pointwise by the break-evaluation pass, or
(Idle state) by the day reset that zeroes every `last_done`. -/
theorem update_breaks (s : State) (inp : TickInput) (s2 : State)
    (h : s.update inp = .ok s2) :
    s2.breaks = s.breaks
    ∨ (∃ start t, s.status = .WorkingSince start ∧ inp.idle = .ok t ∧
        List.Forall₂ (fun b b2 => b2 = b ∨
          (b2 = { b with last_done := (inp.now - start) + s.screen_time } ∧
            b.check ((inp.now - start) + s.screen_time) = true))
          s.breaks s2.breaks)
    ∨ (s2.breaks = s.breaks.map (fun b => { b with last_done := 0 }) ∧
        ∃ start t, s.status = .IdleSince start ∧ inp.idle = .ok t ∧
          s.config.day_resets_after < t ∧ 0 < s.screen_time ∧
          (inp.now - t) - start ≤ s.config.max_idle_time_while_working) := by
  rw [State.update] at h
  rcases hidle : inp.idle with e | t
  · rw [hidle] at h; exact absurd h (by simp)
  simp only [hidle] at h
  rcases hst : s.status with start | start
  · -- IdleSince
    simp only [hst] at h
    split_ifs at h with h1 h2
    · left
      obtain rfl := (Except.ok.injEq _ _).mp h
      rfl
    · right; right
      obtain rfl := (Except.ok.injEq _ _).mp h
      simp only [Bool.and_eq_true, decide_eq_true_eq] at h2
      exact ⟨rfl, start, t, rfl, rfl, h2.1, h2.2, Nat.not_lt.mp h1⟩
    · left
      obtain rfl := (Except.ok.injEq _ _).mp h
      rfl
  · -- WorkingSince
    simp only [hst] at h
    split_ifs at h with h1 h2 h3
    · left
      obtain rfl := (Except.ok.injEq _ _).mp h
      rfl
    · left
      obtain rfl := (Except.ok.injEq _ _).mp h
      rfl
    · right; left
      obtain ⟨tail, htail, hrel⟩ :=
        foldl_breakStep_rel s.config s.am_prompting inp.in_meet
          ((inp.now - start) + s.screen_time) inp.now s.breaks
          ⟨[], none, s.last_prompt, s.status_report⟩
      refine ⟨start, t, rfl, rfl, ?_⟩
      obtain rfl := (Except.ok.injEq _ _).mp h
      rcases hacc : (s.breaks.foldl
          (breakStep s.config s.am_prompting inp.in_meet
            ((inp.now - start) + s.screen_time) inp.now)
          ⟨[], none, s.last_prompt, s.status_report⟩).prompt with _ | p <;>
        · simp only [hacc]
          rw [List.nil_append] at htail
          simpa [htail] using hrel
    · left
      obtain rfl := (Except.ok.injEq _ _).mp h
      rfl

/-- How one operation changes the `last_done` of the `i`-th break rule:
it stays, or it strictly increases to the tick's accumulated work time
with the rule firing (a Working-state acceptance), or the Idle-state day
reset zeroes it. -/
theorem lastDone_step (s : State) (op : Op) (i : Nat) (b b2 : Break)
    (hb : s.breaks[i]? = some b)
    (hb2 : (applyOp s op).breaks[i]? = some b2) :
    b2.last_done = b.last_done
    ∨ (b.last_done < b2.last_done ∧ ∃ inp start, op = .tick inp ∧
        s.status = .WorkingSince start ∧
        b2.last_done = (inp.now - start) + s.screen_time ∧
        b.check ((inp.now - start) + s.screen_time) = true)
    ∨ (b2.last_done = 0 ∧ ∃ inp start t, op = .tick inp ∧
        s.status = .IdleSince start ∧ inp.idle = .ok t ∧
        s.config.day_resets_after < t ∧ 0 < s.screen_time ∧
        (inp.now - t) - start ≤ s.config.max_idle_time_while_working) := by
  cases op with
  | ack =>
    left
    have hbr : (applyOp s Op.ack).breaks = s.breaks := by
      simp only [applyOp, State.ack]
      rcases s.am_prompting with _ | p <;> rfl
    rw [hbr, hb] at hb2
    obtain rfl := (Option.some.injEq _ _).mp hb2
    rfl
  | tick inp =>
    rcases hu : s.update inp with e | s3
    · left
      have happ : applyOp s (.tick inp) = s := by rw [applyOp, hu]
      rw [happ, hb] at hb2
      obtain rfl := (Option.some.injEq _ _).mp hb2
      rfl
    · have happ : applyOp s (.tick inp) = s3 := by rw [applyOp, hu]
      rw [happ] at hb2
      rcases update_breaks s inp s3 hu with heq |
          ⟨start, t, hst, hidle, hrel⟩ |
          ⟨heq, start, t, hst, hidle, hday, hscr, hres⟩
      · left
        rw [heq, hb] at hb2
        obtain rfl := (Option.some.injEq _ _).mp hb2
        rfl
      · obtain ⟨hib, hgb⟩ := List.getElem?_eq_some_iff.mp hb
        obtain ⟨hib2, hgb2⟩ := List.getElem?_eq_some_iff.mp hb2
        have hR := (List.forall₂_iff_get.mp hrel).2 i hib hib2
        rw [List.get_eq_getElem, List.get_eq_getElem, hgb, hgb2] at hR
        rcases hR with rfl | ⟨rfl, hchk⟩
        · left; rfl
        · right; left
          have hlt : b.last_done < (inp.now - start) + s.screen_time := by
            have := hchk
            simp only [Break.check, gt_iff_lt, decide_eq_true_eq] at this
            omega
          exact ⟨hlt, inp, start, rfl, hst, rfl, hchk⟩
      · right; right
        rw [heq, List.getElem?_map, hb] at hb2
        simp only [Option.map_some'] at hb2
        obtain rfl := (Option.some.injEq _ _).mp hb2
        exact ⟨rfl, inp, start, t, rfl, hst, hidle, hday, hscr, hres⟩

/-- C4 as amended: across every sequence of tick and acknowledgment
operations, a rule's `last_done` never changes except that (a) a
Working-state tick in which the rule fires and is accepted raises it —
strictly — to that tick's accumulated work time, and (b) the Idle-state
day reset lowers it to zero.  (The claim's "only increases" fails
because of the reset, see the counterexample.) -/
theorem C4_lastDone_evolution (s : State) (ops : List Op) (op : Op)
    (i : Nat) (b b2 : Break)
    (hb : (run s ops).breaks[i]? = some b)
    (hb2 : (run s (ops ++ [op])).breaks[i]? = some b2) :
    b2.last_done = b.last_done
    ∨ (b.last_done < b2.last_done ∧ ∃ inp start, op = .tick inp ∧
        (run s ops).status = .WorkingSince start ∧
        b2.last_done = (inp.now - start) + (run s ops).screen_time ∧
        b.check ((inp.now - start) + (run s ops).screen_time) = true)
    ∨ (b2.last_done = 0 ∧ ∃ inp start t, op = .tick inp ∧
        (run s ops).status = .IdleSince start ∧ inp.idle = .ok t ∧
        (run s ops).config.day_resets_after < t ∧
        0 < (run s ops).screen_time ∧
        (inp.now - t) - start ≤
          (run s ops).config.max_idle_time_while_working) := by
  have hr : run s (ops ++ [op]) = applyOp (run s ops) op := by
    simp [run, List.foldl_append]
  exact lastDone_step (run s ops) op i b b2 hb (by rw [← hr]; exact hb2)

/-- C4 counterexample: one day-reset tick takes the break's `last_done`
from 100 down to 0 — `last_done` does not only increase. -/
theorem C4_counterexample :
    (run sIdle [Op.tick ⟨.ok 25201, false, 25201⟩]).breaks.map
        Break.last_done = [0] ∧
      sIdle.breaks.map Break.last_done = [100] := by
  refine ⟨by rfl, by rfl⟩

/-- Witness for C4 as amended, instantiated at the day-reset tick on
`sIdle` (the third disjunct is the true one). -/
theorem C4_witness :
    (⟨"b", 3600, 0⟩ : Break).last_done = (⟨"b", 3600, 100⟩ : Break).last_done
    ∨ ((⟨"b", 3600, 100⟩ : Break).last_done <
          (⟨"b", 3600, 0⟩ : Break).last_done ∧
        ∃ inp start, Op.tick ⟨.ok 25201, false, 25201⟩ = Op.tick inp ∧
          (run sIdle []).status = .WorkingSince start ∧
          (⟨"b", 3600, 0⟩ : Break).last_done =
            (inp.now - start) + (run sIdle []).screen_time ∧
          (⟨"b", 3600, 100⟩ : Break).check
            ((inp.now - start) + (run sIdle []).screen_time) = true)
    ∨ ((⟨"b", 3600, 0⟩ : Break).last_done = 0 ∧
        ∃ inp start t, Op.tick ⟨.ok 25201, false, 25201⟩ = Op.tick inp ∧
          (run sIdle []).status = .IdleSince start ∧ inp.idle = .ok t ∧
          (run sIdle []).config.day_resets_after < t ∧
          0 < (run sIdle []).screen_time ∧
          (inp.now - t) - start ≤
            (run sIdle []).config.max_idle_time_while_working) :=
  C4_lastDone_evolution sIdle [] (Op.tick ⟨.ok 25201, false, 25201⟩) 0
    ⟨"b", 3600, 100⟩ ⟨"b", 3600, 0⟩ (by rfl) (by rfl)

/-! ## Toolkit for the codec claims C7 and C8 -/

theorem digit_isDigit : ∀ c ∈ DIGITS, Char.isDigit c = true := by decide

theorem digit_not_ws : ∀ c ∈ DIGITS, isWS c = false := by decide

theorem digit_not_colon : ∀ c ∈ DIGITS, c ≠ ':' := by decide

theorem digit_not_sign : ∀ c ∈ DIGITS, c ≠ '+' ∧ c ≠ '-' := by decide

theorem digit_toLower : ∀ c ∈ DIGITS, Char.toLower c = c := by decide

theorem natToChars_mem (n : Nat) : ∀ c ∈ natToChars n, c ∈ DIGITS := by
  rw [natToChars_eq]
  split_ifs with h
  · intro c hc
    simp only [List.mem_singleton] at hc
    subst hc; decide
  · intro c hc
    simp only [List.mem_reverse, List.mem_map] at hc
    obtain ⟨d, hd, rfl⟩ := hc
    have hd10 : d < 10 := Nat.digits_lt_base (by norm_num) hd
    interval_cases d <;> decide

theorem natToChars_ne_nil (n : Nat) : natToChars n ≠ [] := by
  rw [natToChars_eq]
  split_ifs with h
  · simp
  · simp [Nat.digits_ne_nil_iff_ne_zero.mpr h]

theorem pad2_mem (n : Nat) : ∀ c ∈ pad2 (natToChars n), c ∈ DIGITS := by
  rw [pad2]
  split_ifs with h
  · intro c hc
    rcases List.mem_append.mp hc with hc | hc
    · obtain rfl := List.eq_of_mem_replicate hc
      decide
    · exact natToChars_mem n c hc
  · exact natToChars_mem n

theorem pad2_ne_nil (n : Nat) : pad2 (natToChars n) ≠ [] := by
  rw [pad2]
  split_ifs with h
  · simp [natToChars_ne_nil n]
  · exact natToChars_ne_nil n

theorem natOfDigits_rev_map (L : List Nat) (h : ∀ d ∈ L, d < 10) :
    ∀ a : Nat, List.foldl (fun a c => 10 * a + (c.toNat - 48)) a
        ((L.map digitChar).reverse) =
      a * 10 ^ L.length + Nat.ofDigits 10 L := by
  induction L with
  | nil => intro a; simp
  | cons d L ih =>
    intro a
    have hd : d < 10 := h d (List.mem_cons_self d L)
    have hchar : (digitChar d).toNat - 48 = d := by interval_cases d <;> decide
    rw [List.map_cons, List.reverse_cons, List.foldl_append,
      ih (fun x hx => h x (List.mem_cons_of_mem d hx)) a]
    simp only [List.foldl_cons, List.foldl_nil, hchar, Nat.ofDigits_cons,
      List.length_cons]
    ring

theorem natOfDigits_natToChars (n : Nat) : natOfDigits (natToChars n) = n := by
  rw [natToChars_eq]
  split_ifs with h
  · subst h; decide
  · rw [natOfDigits, natOfDigits_rev_map (Nat.digits 10 n)
      (fun d hd => Nat.digits_lt_base (by norm_num) hd) 0]
    simp [Nat.ofDigits_digits]

theorem natOfDigits_cons_zero (l : List Char) :
    natOfDigits ('0' :: l) = natOfDigits l := by
  simp [natOfDigits]

theorem natOfDigits_pad2 (n : Nat) :
    natOfDigits (pad2 (natToChars n)) = n := by
  rw [pad2]
  split_ifs with h
  · rcases hl : (natToChars n).length with _ | k
    · exact absurd (List.length_eq_zero.mp hl) (natToChars_ne_nil n)
    · rcases k with _ | k
      · norm_num [List.replicate]
        rw [natOfDigits_cons_zero, natOfDigits_natToChars]
      · omega
  · exact natOfDigits_natToChars n

theorem splitOnceColon_of_not_mem (l : List Char) (h : ':' ∉ l) :
    splitOnceColon l = none := by
  induction l with
  | nil => rfl
  | cons c r ih =>
    rw [splitOnceColon, if_neg (by simp at h; exact fun hc => h.1 hc.symm)]
    rw [ih (by simp at h; exact h.2)]

theorem splitOnceColon_append (A B : List Char) (h : ':' ∉ A) :
    splitOnceColon (A ++ ':' :: B) = some (A, B) := by
  induction A with
  | nil => simp [splitOnceColon]
  | cons c r ih =>
    rw [List.cons_append, splitOnceColon,
      if_neg (by simp at h; exact fun hc => h.1 hc.symm),
      ih (by simp at h; exact h.2)]

theorem splitOnceColon_eq_some (l : List Char) (a b : List Char)
    (h : splitOnceColon l = some (a, b)) : l = a ++ ':' :: b ∧ ':' ∉ a := by
  induction l generalizing a with
  | nil => exact absurd h (by rw [splitOnceColon]; simp)
  | cons c r ih =>
    rw [splitOnceColon] at h
    split_ifs at h with hc
    · obtain ⟨rfl, rfl⟩ := Prod.mk.injEq .. ▸ (Option.some.injEq _ _).mp h
      subst hc
      exact ⟨rfl, by simp⟩
    · rcases hr : splitOnceColon r with _ | ⟨a2, b2⟩ <;> rw [hr] at h
      · exact absurd h (by simp)
      · obtain ⟨rfl, rfl⟩ := Prod.mk.injEq .. ▸ (Option.some.injEq _ _).mp h
        obtain ⟨hl, hna⟩ := ih a2 hr
        exact ⟨by rw [List.cons_append, hl], by
          simp only [List.mem_cons, not_or]
          exact ⟨fun hcc => hc hcc.symm, hna⟩⟩

theorem dropPre_eq_some (l p m : List Char) :
    dropPre l p = some m ↔ l = p ++ m := by
  induction p generalizing l with
  | nil => rw [dropPre]; simp [eq_comm]
  | cons q ps ih =>
    cases l with
    | nil => rw [dropPre]; simp
    | cons c r =>
      rw [dropPre]
      split_ifs with hc
      · subst hc; rw [ih]; simp
      · simp [hc]

theorem stripSuffix_eq_some (l s A : List Char) :
    stripSuffix l s = some A ↔ l = A ++ s := by
  rw [stripSuffix]
  constructor
  · intro h
    obtain ⟨m, hm, rfl⟩ := Option.map_eq_some'.mp h
    have hrev := (dropPre_eq_some _ _ _).mp hm
    have := congrArg List.reverse hrev
    simpa using this
  · intro h
    subst h
    have hd : dropPre (A ++ s).reverse s.reverse = some A.reverse :=
      (dropPre_eq_some _ _ _).mpr (by simp)
    rw [hd]
    simp

theorem stripSuffix_append (A s : List Char) :
    stripSuffix (A ++ s) s = some A :=
  (stripSuffix_eq_some _ _ _).mpr rfl

theorem stripSuffix_none_of (l s : List Char) (h : ∀ A, l ≠ A ++ s) :
    stripSuffix l s = none := by
  rcases hs : stripSuffix l s with _ | A
  · rfl
  · exact absurd ((stripSuffix_eq_some _ _ _).mp hs) (h A)

/-- Two lists with definitely different tails (witnessed by the first
`k` characters from the right) are different, whatever precedes them. -/
theorem append_suffix_ne (A B x y : List Char) (k : Nat)
    (hx : k ≤ x.length) (hy : k ≤ y.length)
    (hne : x.reverse.take k ≠ y.reverse.take k) : A ++ x ≠ B ++ y := by
  intro h
  have h2 : (x.reverse ++ A.reverse).take k = (y.reverse ++ B.reverse).take k := by
    rw [← List.reverse_append, ← List.reverse_append, h]
  rw [List.take_append_of_le_length (by simpa),
    List.take_append_of_le_length (by simpa)] at h2
  exact hne h2

theorem dropWhile_isWS_of (l : List Char) (h : ∀ c ∈ l, isWS c = false) :
    l.dropWhile isWS = l := by
  cases l with
  | nil => rfl
  | cons c r => simp [List.dropWhile_cons, h c (List.mem_cons_self c r)]

theorem trimL_of (l : List Char) (h : ∀ c ∈ l, isWS c = false) :
    trimL l = l := by
  rw [trimL, dropWhile_isWS_of l h,
    dropWhile_isWS_of _ (fun c hc => h c (List.mem_reverse.mp hc)),
    List.reverse_reverse]

theorem trimL_append_space (l : List Char) (h : ∀ c ∈ l, isWS c = false) :
    trimL (l ++ [' ']) = l := by
  cases l with
  | nil => decide
  | cons c r =>
    rw [trimL]
    rw [show ((c :: r) ++ [' ']).dropWhile isWS = (c :: r) ++ [' '] by
      simp [List.cons_append, List.dropWhile_cons,
        h c (List.mem_cons_self c r)]]
    rw [show ((c :: r) ++ [' ']).reverse = ' ' :: (c :: r).reverse by simp]
    rw [List.dropWhile_cons]
    rw [if_pos (by decide)]
    rw [dropWhile_isWS_of _ (fun c2 hc2 => h c2 (List.mem_reverse.mp hc2)),
      List.reverse_reverse]

theorem stripSign_digits (l : List Char) (h : ∀ c ∈ l, c ∈ DIGITS) :
    stripSign l = (false, l) := by
  cases l with
  | nil => rfl
  | cons c r =>
    have hc := digit_not_sign c (h c (List.mem_cons_self c r))
    rw [stripSign, if_neg hc.1, if_neg hc.2]

theorem map_toLower_digits (l : List Char) (h : ∀ c ∈ l, c ∈ DIGITS) :
    l.map Char.toLower = l := by
  induction l with
  | nil => rfl
  | cons c r ih =>
    rw [List.map_cons, digit_toLower c (h c (List.mem_cons_self c r)),
      ih (fun c2 hc2 => h c2 (List.mem_cons_of_mem c hc2))]

theorem digits_ne_keywords (l : List Char) (h : ∀ c ∈ l, c ∈ DIGITS) :
    l ≠ "inf".data ∧ l ≠ "infinity".data ∧ l ≠ "nan".data := by
  refine ⟨fun he => ?_, fun he => ?_, fun he => ?_⟩
  · exact absurd (h 'i' (he ▸ (by decide))) (by decide)
  · exact absurd (h 'i' (he ▸ (by decide))) (by decide)
  · exact absurd (h 'a' (he ▸ (by decide))) (by decide)

/-! ### Correctness of the binary64 rounding on small integers

Every nonnegative integer below `2^53` is exactly representable as a
double, so `flRound` leaves it unchanged; this is the only general fact
about `flRound` the theorems below need (the remaining uses are at
concrete values, where the kernel evaluates it). -/

theorem roundHalfEven_one (n : Nat) : roundHalfEven n 1 = n := by
  simp [roundHalfEven, Nat.mod_one, Nat.div_one]

theorem log2F_correct : ∀ (fuel n : Nat), 1 ≤ n → n ≤ fuel →
    2 ^ log2F fuel n ≤ n ∧ n < 2 ^ (log2F fuel n + 1) := by
  intro fuel
  induction fuel with
  | zero => intro n h1 h2; omega
  | succ f ih =>
    intro n h1 h2
    rcases n with _ | _ | m
    · omega
    · refine ⟨by simp [log2F], by norm_num [log2F]⟩
    · simp only [log2F]
      have hh1 : 1 ≤ (m + 2) / 2 := by omega
      have hh2 : (m + 2) / 2 ≤ f := by omega
      obtain ⟨ha1, ha2⟩ := ih ((m + 2) / 2) hh1 hh2
      have h3 : 2 ^ (log2F f ((m + 2) / 2) + 1) =
          2 * 2 ^ (log2F f ((m + 2) / 2)) := by ring
      have h4 : 2 ^ (log2F f ((m + 2) / 2) + 1 + 1) =
          2 * 2 ^ (log2F f ((m + 2) / 2) + 1) := by ring
      omega

theorem flRoundPos_int (n : Nat) (hn : 1 ≤ n) (hlt : n < 2 ^ 53) :
    ∃ r : UFrac, flRoundPos n 1 = .num r ∧
      r.num * ((1 : Nat) : Int) = (n : Int) * (r.den : Int) := by
  obtain ⟨hl1, hl2⟩ := log2F_correct n n hn le_rfl
  set L := log2F n n with hL
  have hL52 : L ≤ 52 := by
    by_contra hc
    push_neg at hc
    have h53 : (2 : Nat) ^ 53 ≤ 2 ^ L := Nat.pow_le_pow_right (by norm_num) hc
    omega
  have hq : qlog2 n 1 = (L : Int) := by
    have h0 : log2F 1 1 = 0 := rfl
    simp only [qlog2, h0, Nat.cast_zero, sub_zero, Int.toNat_natCast]
    rw [if_pos (Int.natCast_nonneg L), if_pos (by simpa using hl1)]
  have hu : flExp n 1 = (L : Int) - 52 := by
    rw [flExp, hq]
    exact max_eq_left (by omega)
  rcases Nat.lt_or_ge L 52 with hLlt | hLge
  · -- L < 52: negative exponent branch
    have hune : ¬ (0 ≤ (L : Int) - 52) := by omega
    have htn : ((-(((L : Int)) - 52)).toNat) = 52 - L := by omega
    have hm : flMant n 1 = n * 2 ^ (52 - L) := by
      rw [flMant, hu, if_neg hune, htn]
      exact roundHalfEven_one _
    have hfp : flRoundPos n 1 =
        .num ⟨((n * 2 ^ (52 - L) : Nat) : Int), 2 ^ (52 - L)⟩ := by
      rw [flRoundPos, hu, if_neg hune, hm, htn]
    refine ⟨_, hfp, ?_⟩
    push_cast
    ring
  · -- L = 52: exponent 0
    have hL52e : L = 52 := le_antisymm hL52 hLge
    have hu0 : flExp n 1 = 0 := by rw [hu, hL52e]; norm_num
    have hm : flMant n 1 = n := by
      rw [flMant, hu0, if_pos le_rfl]
      norm_num [roundHalfEven_one]
    have hov : ¬ ((2 : Nat) ^ 1024 ≤ flMant n 1 * 2 ^ ((0 : Int)).toNat) := by
      rw [hm]
      have h1024 : (2 : Nat) ^ 53 ≤ 2 ^ 1024 :=
        Nat.pow_le_pow_right (by norm_num) (by norm_num)
      simp only [Int.toNat_zero, pow_zero, mul_one]
      omega
    have hfp : flRoundPos n 1 = .num ⟨((n : Nat) : Int), 1⟩ := by
      rw [flRoundPos, hu0, if_pos le_rfl, if_neg hov, hm]
      simp
    refine ⟨_, hfp, ?_⟩
    push_cast
    ring

theorem flRound_int_exact (q : UFrac) (hd : q.den = 1) (h0 : 0 ≤ q.num)
    (hlt : q.num < 2 ^ 53) : flRound q = .num q := by
  rcases q with ⟨z, d⟩
  obtain rfl : d = 1 := hd
  simp only at h0 hlt
  rcases Int.eq_ofNat_of_zero_le h0 with ⟨n, rfl⟩
  rcases Nat.eq_zero_or_pos n with rfl | hn
  · simp [flRound]
  · have hlt2 : n < 2 ^ 53 := by exact_mod_cast hlt
    obtain ⟨r, hfp, hval⟩ := flRoundPos_int n hn hlt2
    have hc1 : ¬((n : Int) = 0 ∨ (1 : Nat) = 0) := by omega
    have hc2 : (0 : Int) < (n : Int) := by omega
    rw [flRound]
    dsimp only
    rw [if_neg hc1, if_pos hc2, Int.toNat_natCast, hfp]
    dsimp only
    rw [if_pos hval]

theorem flRoundPos_den_pos (n d : Nat) (r : UFrac)
    (h : flRoundPos n d = .num r) : 0 < r.den := by
  rw [flRoundPos] at h
  split_ifs at h
  · obtain rfl := (FVal.num.injEq _ _).mp h
    exact Nat.one_pos
  · obtain rfl := (FVal.num.injEq _ _).mp h
    exact Nat.two_pow_pos _

theorem flRound_den_pos (q f : UFrac) (hq : 0 < q.den)
    (h : flRound q = .num f) : 0 < f.den := by
  rw [flRound] at h
  split_ifs at h with h1 h2
  · obtain rfl := (FVal.num.injEq _ _).mp h
    exact hq
  · cases hfp : flRoundPos q.num.toNat q.den with
    | num r =>
      rw [hfp] at h
      dsimp only at h
      split_ifs at h
      · obtain rfl := (FVal.num.injEq _ _).mp h
        exact hq
      · obtain rfl := (FVal.num.injEq _ _).mp h
        exact flRoundPos_den_pos _ _ _ hfp
    | nan =>
      rw [hfp] at h
      exact absurd h (by simp)
    | inf s =>
      rw [hfp] at h
      exact absurd h (by simp)
  · cases hfp : flRoundPos (-q.num).toNat q.den with
    | num r =>
      rw [hfp] at h
      dsimp only at h
      split_ifs at h
      · obtain rfl := (FVal.num.injEq _ _).mp h
        exact hq
      · obtain rfl := (FVal.num.injEq _ _).mp h
        have hr := flRoundPos_den_pos _ _ _ hfp
        simpa [UFrac.neg] using hr
    | nan =>
      rw [hfp] at h
      exact absurd h (by simp)
    | inf s =>
      rw [hfp] at h
      exact absurd h (by simp)

theorem parseNumber_digits (l : List Char) (h : ∀ c ∈ l, c ∈ DIGITS)
    (hne : l ≠ []) :
    parseNumber l = some (UFrac.ofNat (natOfDigits l)) := by
  have ht : l.takeWhile Char.isDigit = l :=
    List.takeWhile_eq_self_iff.mpr (fun c hc => digit_isDigit c (h c hc))
  have hd : l.dropWhile Char.isDigit = [] :=
    List.dropWhile_eq_nil_iff.mpr (fun c hc => digit_isDigit c (h c hc))
  rw [parseNumber]
  simp only [ht, hd]
  rw [mkNum, if_neg (by simp [hne])]
  congr 1
  simp only [show natOfDigits [] = 0 from rfl, List.length_nil,
    UFrac.ofNat, UFrac.divPow10, UFrac.add]
  norm_num

theorem parse_f64L_digits (l : List Char) (h : ∀ c ∈ l, c ∈ DIGITS)
    (hne : l ≠ []) (hlt : natOfDigits l < 2 ^ 53) :
    parse_f64L l = some (.num (UFrac.ofNat (natOfDigits l))) := by
  obtain ⟨h1, h2, h3⟩ := digits_ne_keywords l h
  rw [parse_f64L]
  simp only [stripSign_digits l h, map_toLower_digits l h]
  rw [if_neg (by simp [h1, h2]), if_neg h3, parseNumber_digits l h hne,
    Option.map_some']
  rw [flRound_int_exact (UFrac.ofNat (natOfDigits l)) rfl
    (Int.natCast_nonneg _)
    (show ((natOfDigits l : Nat) : Int) < 2 ^ 53 by exact_mod_cast hlt)]
  rfl

theorem combine_ofNat (h m : Nat) (hb : (h * 60 + m) * 60 < 2 ^ 53) :
    combine (.num (UFrac.ofNat h)) (.num (UFrac.ofNat m)) =
      .ok ((h * 60 + m) * 60 * 1000000000) := by
  have e1 : flRound ((UFrac.ofNat h).mulNat 60) =
      .num ((UFrac.ofNat h).mulNat 60) :=
    flRound_int_exact _ rfl
      (show (0 : Int) ≤ (h : Int) * ((60 : Nat) : Int) by positivity)
      (show (h : Int) * ((60 : Nat) : Int) < 2 ^ 53 by push_cast; omega)
  have e2 : flRound (((UFrac.ofNat h).mulNat 60).add (UFrac.ofNat m)) =
      .num (((UFrac.ofNat h).mulNat 60).add (UFrac.ofNat m)) :=
    flRound_int_exact _ rfl
      (show (0 : Int) ≤ (h : Int) * ((60 : Nat) : Int) * ((1 : Nat) : Int) +
          (m : Int) * ((1 : Nat) : Int) by positivity)
      (show (h : Int) * ((60 : Nat) : Int) * ((1 : Nat) : Int) +
          (m : Int) * ((1 : Nat) : Int) < 2 ^ 53 by push_cast; omega)
  have e3 : flRound ((((UFrac.ofNat h).mulNat 60).add
        (UFrac.ofNat m)).mulNat 60) =
      .num ((((UFrac.ofNat h).mulNat 60).add (UFrac.ofNat m)).mulNat 60) :=
    flRound_int_exact _ rfl
      (show (0 : Int) ≤ ((h : Int) * ((60 : Nat) : Int) * ((1 : Nat) : Int) +
          (m : Int) * ((1 : Nat) : Int)) * ((60 : Nat) : Int) by positivity)
      (show ((h : Int) * ((60 : Nat) : Int) * ((1 : Nat) : Int) +
          (m : Int) * ((1 : Nat) : Int)) * ((60 : Nat) : Int) < 2 ^ 53 by
        push_cast; omega)
  rw [combine]
  simp only [fvMulNat]
  rw [e1]
  simp only [fvAdd]
  rw [e2]
  simp only [fvMulNat]
  rw [e3]
  simp only [UFrac.ofNat, UFrac.mulNat, UFrac.add, from_secs_f64]
  rw [if_neg (by push_cast; omega), if_neg (by push_cast; omega),
    show ((1 : Nat) * 1) = 1 from rfl, roundHalfEven_one]
  exact congrArg PResult.ok (by push_cast; omega)

theorem parsemeL_colon (H R : Nat) (hb : (H * 60 + R) * 60 < 2 ^ 53) :
    parsemeL (natToChars H ++ ':' :: pad2 (natToChars R)) =
      .ok ((H * 60 + R) * 60 * 1000000000) := by
  have hA := natToChars_mem H
  have hB := pad2_mem R
  have hH53 : natOfDigits (natToChars H) < 2 ^ 53 := by
    rw [natOfDigits_natToChars]; omega
  have hR53 : natOfDigits (pad2 (natToChars R)) < 2 ^ 53 := by
    rw [natOfDigits_pad2]; omega
  have hcol : ':' ∉ natToChars H := fun hc => digit_not_colon ':' (hA ':' hc) rfl
  simp only [parsemeL, splitOnceColon_append _ _ hcol,
    trimL_of _ (fun c hc => digit_not_ws c (hA c hc)),
    trimL_of _ (fun c hc => digit_not_ws c (hB c hc)),
    parse_f64L_digits _ hA (natToChars_ne_nil H) hH53,
    parse_f64L_digits _ hB (pad2_ne_nil R) hR53,
    natOfDigits_natToChars, natOfDigits_pad2]
  exact combine_ofNat H R hb

theorem parsemeL_hours (H : Nat) (hb : (H * 60 + 0) * 60 < 2 ^ 53) :
    parsemeL (natToChars H ++ " hours".data) =
      .ok ((H * 60 + 0) * 60 * 1000000000) := by
  have hA := natToChars_mem H
  have hH53 : natOfDigits (natToChars H) < 2 ^ 53 := by
    rw [natOfDigits_natToChars]; omega
  have hnocol : ':' ∉ natToChars H ++ " hours".data := by
    intro hc
    rcases List.mem_append.mp hc with hc | hc
    · exact digit_not_colon ':' (hA ':' hc) rfl
    · exact absurd hc (by decide)
  have hs1 : stripSuffix (natToChars H ++ " hours".data) "h".data = none :=
    stripSuffix_none_of _ _ (fun A =>
      append_suffix_ne _ _ _ _ 1 (by decide) (by decide) (by decide))
  have hs2 : stripSuffix (natToChars H ++ " hours".data) "hours".data =
      some (natToChars H ++ [' ']) := by
    rw [show natToChars H ++ " hours".data =
        (natToChars H ++ [' ']) ++ "hours".data by
      rw [show (" hours".data : List Char) = [' '] ++ "hours".data by decide,
        ← List.append_assoc]]
    exact stripSuffix_append _ _
  simp only [parsemeL, splitOnceColon_of_not_mem _ hnocol, hs1, hs2,
    Option.none_orElse, Option.some_orElse,
    trimL_append_space _ (fun c hc => digit_not_ws c (hA c hc)),
    parse_f64L_digits _ hA (natToChars_ne_nil H) hH53, natOfDigits_natToChars]
  exact combine_ofNat H 0 hb

theorem parsemeL_minutes (R : Nat) (hb : (0 * 60 + R) * 60 < 2 ^ 53) :
    parsemeL (natToChars R ++ " minutes".data) =
      .ok ((0 * 60 + R) * 60 * 1000000000) := by
  have hA := natToChars_mem R
  have hR53 : natOfDigits (natToChars R) < 2 ^ 53 := by
    rw [natOfDigits_natToChars]; omega
  have hnocol : ':' ∉ natToChars R ++ " minutes".data := by
    intro hc
    rcases List.mem_append.mp hc with hc | hc
    · exact digit_not_colon ':' (hA ':' hc) rfl
    · exact absurd hc (by decide)
  have hs1 : stripSuffix (natToChars R ++ " minutes".data) "h".data = none :=
    stripSuffix_none_of _ _ (fun A =>
      append_suffix_ne _ _ _ _ 1 (by decide) (by decide) (by decide))
  have hs2 : stripSuffix (natToChars R ++ " minutes".data) "hours".data = none :=
    stripSuffix_none_of _ _ (fun A =>
      append_suffix_ne _ _ _ _ 2 (by decide) (by decide) (by decide))
  have hs3 : stripSuffix (natToChars R ++ " minutes".data) "hour".data = none :=
    stripSuffix_none_of _ _ (fun A =>
      append_suffix_ne _ _ _ _ 1 (by decide) (by decide) (by decide))
  have hs4 : stripSuffix (natToChars R ++ " minutes".data) "m".data = none :=
    stripSuffix_none_of _ _ (fun A =>
      append_suffix_ne _ _ _ _ 1 (by decide) (by decide) (by decide))
  have hs5 : stripSuffix (natToChars R ++ " minutes".data) "minutes".data =
      some (natToChars R ++ [' ']) := by
    rw [show natToChars R ++ " minutes".data =
        (natToChars R ++ [' ']) ++ "minutes".data by
      rw [show (" minutes".data : List Char) = [' '] ++ "minutes".data by decide,
        ← List.append_assoc]]
    exact stripSuffix_append _ _
  simp only [parsemeL, splitOnceColon_of_not_mem _ hnocol, hs1, hs2, hs3, hs4,
    hs5, Option.none_orElse, Option.some_orElse,
    trimL_append_space _ (fun c hc => digit_not_ws c (hA c hc)),
    parse_f64L_digits _ hA (natToChars_ne_nil R) hR53, natOfDigits_natToChars]
  exact combine_ofNat 0 R hb

set_option maxRecDepth 4000 in
theorem parsemeL_renderHM (h r : Nat) (hr : r < 60)
    (hb : (h * 60 + r) * 60 < 2 ^ 53) :
    parsemeL (renderHM h r) = .ok ((h * 60 + r) * 60 * 1000000000) := by
  rcases h with _ | _ | h2 <;> rcases r with _ | _ | r2
  · decide
  · decide
  · exact parsemeL_minutes _ hb
  · decide
  · exact parsemeL_colon 1 1 hb
  · exact parsemeL_colon 1 _ hb
  · exact parsemeL_hours _ hb
  · exact parsemeL_colon _ 1 hb
  · exact parsemeL_colon _ _ hb

theorem tostring_eq (n : Nat) :
    tostring n = String.mk (renderHM (n / 1000000000 / 60 / 60)
      (n / 1000000000 / 60 - n / 1000000000 / 60 / 60 * 60)) := rfl

/-! ## Claim C8: stability of format-then-parse -/

/-- C8 as amended: for every duration below `2^53` seconds — the range
in which the integer hour and minute components of the formatted string
and all three intermediate `f64` products of re-parsing are exactly
representable as doubles — `parse(format(d))` succeeds, the reparsed
value reformats to the same string, and it differs from `d` by less
than 60 seconds (never exceeding `d`).  Beyond that range the final
`f64` multiplication can round the total-second count and the law fails
(`C8_counterexample`). -/
theorem C8_format_parse_stable (d : Nat) (hd : d < 2 ^ 53 * 1000000000) :
    ∃ n, parseme (tostring d) = .ok n ∧ tostring n = tostring d ∧
      n ≤ d ∧ d - n < 60 * 1000000000 := by
  refine ⟨d / 1000000000 / 60 * 60 * 1000000000, ?_, ?_, by omega, by omega⟩
  · have h2 := parsemeL_renderHM (d / 1000000000 / 60 / 60)
      (d / 1000000000 / 60 - d / 1000000000 / 60 / 60 * 60)
      (by omega) (by omega)
    have hstep : parseme (tostring d) =
        parsemeL (renderHM (d / 1000000000 / 60 / 60)
          (d / 1000000000 / 60 - d / 1000000000 / 60 / 60 * 60)) := rfl
    have h3 : (d / 1000000000 / 60 / 60 * 60 +
        (d / 1000000000 / 60 - d / 1000000000 / 60 / 60 * 60)) * 60 *
          1000000000 =
        d / 1000000000 / 60 * 60 * 1000000000 := by omega
    exact hstep.trans (h2.trans (congrArg PResult.ok h3))
  · have ha : d / 1000000000 / 60 * 60 * 1000000000 / 1000000000 / 60 / 60 =
        d / 1000000000 / 60 / 60 := by omega
    have hb : d / 1000000000 / 60 * 60 * 1000000000 / 1000000000 / 60 -
          d / 1000000000 / 60 * 60 * 1000000000 / 1000000000 / 60 / 60 * 60 =
        d / 1000000000 / 60 - d / 1000000000 / 60 / 60 * 60 := by omega
    rw [tostring_eq, tostring_eq, hb, ha]

set_option maxRecDepth 10000 in
/-- C8 counterexample: `d` = 540431955284459460 seconds is inside
`Duration`'s range (`d < 2^64` s) and formats as "150119987579016:31",
but the total-second product `(150119987579016 * 60 + 31) * 60` needs 59
bits, so the final `f64` multiplication of `parseme` rounds it down to
the nearest double, 540431955284459456 — four seconds less — and the
reparsed duration reformats as "150119987579016:30":
`format(parse(format(d)))` differs from `format(d)`. -/
theorem C8_counterexample :
    540431955284459460 * 1000000000 < 2 ^ 64 * 1000000000 ∧
    tostring (540431955284459460 * 1000000000) = "150119987579016:31" ∧
    parseme "150119987579016:31" = .ok (540431955284459456 * 1000000000) ∧
    tostring (540431955284459456 * 1000000000) = "150119987579016:30" := by
  refine ⟨by norm_num, by decide, by decide, by decide⟩

/-- Witness for C8 as amended, at the 3-hours-2-minutes duration. -/
theorem C8_witness :
    (3 * 3600 + 120) * 1000000000 < 2 ^ 53 * 1000000000 ∧
    ∃ n, parseme (tostring ((3 * 3600 + 120) * 1000000000)) = .ok n ∧
      tostring n = tostring ((3 * 3600 + 120) * 1000000000) ∧
      n ≤ (3 * 3600 + 120) * 1000000000 ∧
      (3 * 3600 + 120) * 1000000000 - n < 60 * 1000000000 :=
  ⟨by norm_num, C8_format_parse_stable _ (by norm_num)⟩

/-! ## Claim C7: the accepted shapes and the parsed value -/

theorem mkNum_den_pos (ds fs r : List Char) (q : UFrac)
    (h : mkNum ds fs r = some q) : 0 < q.den := by
  rw [mkNum] at h
  split_ifs at h with h1
  rcases r with _ | ⟨e, r2⟩
  · obtain rfl := (Option.some.injEq _ _).mp h
    simp only [UFrac.add, UFrac.ofNat, UFrac.divPow10]
    positivity
  · dsimp only at h
    split_ifs at h with he
    · obtain ⟨p, hp, rfl⟩ := Option.map_eq_some'.mp h
      rcases p with ⟨neg, k⟩
      rcases neg <;>
        simp only [UFrac.divPow10, UFrac.mulPow10, UFrac.add, UFrac.ofNat,
          Bool.false_eq_true, if_false, if_true] <;>
        positivity

theorem parseNumber_den_pos (l : List Char) (q : UFrac)
    (h : parseNumber l = some q) : 0 < q.den := by
  rw [parseNumber] at h
  split at h
  · exact mkNum_den_pos _ _ _ _ h
  · exact mkNum_den_pos _ _ _ _ h

theorem parse_f64L_den_pos (l : List Char) (f : UFrac)
    (h : parse_f64L l = some (.num f)) : 0 < f.den := by
  rw [parse_f64L] at h
  rcases hsp : stripSign l with ⟨neg, r⟩
  simp only [hsp] at h
  split_ifs at h
  · exact absurd ((Option.some.injEq _ _).mp h) (by simp)
  · exact absurd ((Option.some.injEq _ _).mp h) (by simp)
  all_goals obtain ⟨q, hq, hf⟩ := Option.map_eq_some'.mp h
  all_goals have hden := parseNumber_den_pos r q hq
  all_goals cases hfr : flRound q with
    | num f2 =>
      rw [hfr] at hf
      dsimp only at hf
      have hd2 := flRound_den_pos q f2 hden hfr
      obtain rfl := (FVal.num.injEq _ _).mp hf
      first
        | exact hd2
        | simpa [UFrac.neg] using hd2
    | nan =>
      rw [hfr] at hf
      exact absurd hf (by simp)
    | inf s =>
      rw [hfr] at hf
      exact absurd hf (by simp)

theorem toRat_ofNat_zero : (UFrac.ofNat 0).toRat = 0 := by
  rw [UFrac.ofNat, UFrac.toRat]
  norm_num

theorem toRat_mulNat (f : UFrac) (n : Nat) :
    (f.mulNat n).toRat = f.toRat * n := by
  rw [UFrac.mulNat, UFrac.toRat, UFrac.toRat]
  push_cast
  ring

theorem toRat_add (a b : UFrac) (ha : a.den ≠ 0) (hb : b.den ≠ 0) :
    (a.add b).toRat = a.toRat + b.toRat := by
  rw [UFrac.add, UFrac.toRat, UFrac.toRat, UFrac.toRat]
  have ha2 : (a.den : Rat) ≠ 0 := Nat.cast_ne_zero.mpr ha
  have hb2 : (b.den : Rat) ≠ 0 := Nat.cast_ne_zero.mpr hb
  push_cast
  field_simp

/-- When the scaled value does not sit exactly half-way between two
integers, rounding half-to-even agrees with rounding half-up,
`⌊(2N + d) / 2d⌋`. -/
theorem roundHalfEven_eq_half_up (N d : Nat) (hd : 0 < d)
    (hnt : (2 * N) % (2 * d) ≠ d) :
    roundHalfEven N d = (2 * N + d) / (2 * d) := by
  have hqr := Nat.div_add_mod N d
  have hrlt : N % d < d := Nat.mod_lt _ hd
  have hN1 : 2 * N = 2 * d * (N / d) + 2 * (N % d) := by
    conv_lhs => rw [← hqr]
    ring
  have hN2 : 2 * N + d = 2 * d * (N / d) + (2 * (N % d) + d) := by
    conv_lhs => rw [← hqr]
    ring
  have hmod : (2 * N) % (2 * d) = 2 * (N % d) := by
    rw [hN1, Nat.mul_add_mod]
    exact Nat.mod_eq_of_lt (by omega)
  have hnt2 : 2 * (N % d) ≠ d := by omega
  have hsplit : (2 * N + d) / (2 * d) =
      N / d + (2 * (N % d) + d) / (2 * d) := by
    rw [hN2, Nat.mul_add_div (by omega)]
  rw [roundHalfEven, hsplit]
  rcases Nat.lt_or_ge (2 * (N % d)) d with hlt | hge
  · rw [if_neg (by omega), if_pos hlt]
    have h1 : (2 * (N % d) + d) / (2 * d) = 0 := Nat.div_eq_of_lt (by omega)
    omega
  · have hgt : d < 2 * (N % d) := by omega
    rw [if_pos hgt]
    have h1 : (2 * (N % d) + d) / (2 * d) = 1 :=
      Nat.div_eq_of_lt_le (by omega) (by omega)
    omega

/-- The `ok` value of `from_secs_f64` on a non-negative in-range finite
value is the rational value rounded to the nearest nanosecond, under the
hypothesis that the value is not an exact half-nanosecond tie (at a tie
the code rounds to even where `round` rounds up). -/
theorem from_secs_f64_ok (f : UFrac) (hden : 0 < f.den)
    (hnt : (2 * (f.num.toNat * 1000000000)) % (2 * f.den) ≠ f.den)
    (h0 : 0 ≤ f.toRat) (hlt : f.toRat < 2 ^ 64) :
    from_secs_f64 (.num f) = .ok (round (f.toRat * 1000000000)).toNat := by
  have hd0 : (0 : Rat) < (f.den : Rat) := by exact_mod_cast hden
  have hnum0 : 0 ≤ f.num := by
    by_contra hneg
    push_neg at hneg
    have h2 : f.toRat < 0 :=
      div_neg_of_neg_of_pos (by exact_mod_cast hneg) hd0
    linarith
  have hlt2 : f.num < 2 ^ 64 * (f.den : Int) := by
    rw [UFrac.toRat, div_lt_iff₀ hd0] at hlt
    exact_mod_cast hlt
  rw [from_secs_f64]
  rw [if_neg (by omega), if_neg (by omega)]
  congr 1
  rw [roundHalfEven_eq_half_up _ _ hden hnt]
  rw [round_eq]
  have key : f.toRat * 1000000000 + 1 / 2 =
      ((2 * f.num * 1000000000 + (f.den : Int) : Int) : Rat) /
        ((2 * f.den : Nat) : Rat) := by
    rw [UFrac.toRat]
    have hd2 : (f.den : Rat) ≠ 0 := ne_of_gt hd0
    field_simp
    ring
  rw [key, Rat.floor_intCast_div_natCast]
  rw [show (2 * f.num * 1000000000 + (f.den : Int)) =
      ((2 * (f.num.toNat * 1000000000) + f.den : Nat) : Int) by
    push_cast; omega]
  rw [← Int.ofNat_ediv, Int.toNat_ofNat]

/-- The value computed by the last two lines of `parseme` from the two
parsed components, as a rounded nanosecond count, under the hypotheses
that none of the three `f64` operations rounds: the exact results of
`hours * 60.0`, `+ minutes` and `* 60.0` all lie on the binary64 grid
(integers below `2^53` always do, `flRound_int_exact`). -/
theorem combine_ok (fa fb : UFrac) (hda : 0 < fa.den) (hdb : 0 < fb.den)
    (hx1 : flRound (fa.mulNat 60) = .num (fa.mulNat 60))
    (hx2 : flRound ((fa.mulNat 60).add fb) = .num ((fa.mulNat 60).add fb))
    (hx3 : flRound (((fa.mulNat 60).add fb).mulNat 60) =
      .num (((fa.mulNat 60).add fb).mulNat 60))
    (hnt : (2 * ((((fa.mulNat 60).add fb).mulNat 60).num.toNat *
        1000000000)) % (2 * (((fa.mulNat 60).add fb).mulNat 60).den) ≠
      (((fa.mulNat 60).add fb).mulNat 60).den)
    (h0 : 0 ≤ (fa.toRat * 60 + fb.toRat) * 60)
    (hlt : (fa.toRat * 60 + fb.toRat) * 60 < 2 ^ 64) :
    combine (.num fa) (.num fb) =
      .ok (round ((fa.toRat * 60 + fb.toRat) * 60 * 1000000000)).toNat := by
  rw [combine]
  simp only [fvMulNat]
  rw [hx1]
  simp only [fvAdd]
  rw [hx2]
  simp only [fvMulNat]
  rw [hx3]
  have hgden : 0 < (((fa.mulNat 60).add fb).mulNat 60).den := by
    simp only [UFrac.mulNat, UFrac.add]
    positivity
  have hgval : (((fa.mulNat 60).add fb).mulNat 60).toRat =
      (fa.toRat * 60 + fb.toRat) * 60 := by
    rw [toRat_mulNat, toRat_add _ _ (by simp [UFrac.mulNat]; omega) (by omega),
      toRat_mulNat]
    push_cast
    ring
  rw [from_secs_f64_ok _ hgden hnt (by rw [hgval]; exact h0)
    (by rw [hgval]; exact hlt), hgval]

theorem parseme_colon_ok (A B : List Char) (fa fb : UFrac) (hcol : ':' ∉ A)
    (hfa : parse_f64L (trimL A) = some (.num fa))
    (hfb : parse_f64L (trimL B) = some (.num fb))
    (hx1 : flRound (fa.mulNat 60) = .num (fa.mulNat 60))
    (hx2 : flRound ((fa.mulNat 60).add fb) = .num ((fa.mulNat 60).add fb))
    (hx3 : flRound (((fa.mulNat 60).add fb).mulNat 60) =
      .num (((fa.mulNat 60).add fb).mulNat 60))
    (hnt : (2 * ((((fa.mulNat 60).add fb).mulNat 60).num.toNat *
        1000000000)) % (2 * (((fa.mulNat 60).add fb).mulNat 60).den) ≠
      (((fa.mulNat 60).add fb).mulNat 60).den)
    (h0 : 0 ≤ (fa.toRat * 60 + fb.toRat) * 60)
    (hlt : (fa.toRat * 60 + fb.toRat) * 60 < 2 ^ 64) :
    parsemeL (A ++ ':' :: B) =
      .ok (round ((fa.toRat * 60 + fb.toRat) * 60 * 1000000000)).toNat := by
  simp only [parsemeL, splitOnceColon_append _ _ hcol, hfa, hfb]
  exact combine_ok fa fb (parse_f64L_den_pos _ _ hfa)
    (parse_f64L_den_pos _ _ hfb) hx1 hx2 hx3 hnt h0 hlt

theorem parseme_hour_suffix_ok (A suf : List Char) (fa : UFrac)
    (hsuf : suf ∈ ["h".data, "hours".data, "hour".data]) (hcol : ':' ∉ A)
    (hfa : parse_f64L (trimL A) = some (.num fa))
    (hx1 : flRound (fa.mulNat 60) = .num (fa.mulNat 60))
    (hx2 : flRound ((fa.mulNat 60).add (UFrac.ofNat 0)) =
      .num ((fa.mulNat 60).add (UFrac.ofNat 0)))
    (hx3 : flRound (((fa.mulNat 60).add (UFrac.ofNat 0)).mulNat 60) =
      .num (((fa.mulNat 60).add (UFrac.ofNat 0)).mulNat 60))
    (hnt : (2 * ((((fa.mulNat 60).add (UFrac.ofNat 0)).mulNat 60).num.toNat *
        1000000000)) %
        (2 * (((fa.mulNat 60).add (UFrac.ofNat 0)).mulNat 60).den) ≠
      (((fa.mulNat 60).add (UFrac.ofNat 0)).mulNat 60).den)
    (h0 : 0 ≤ (fa.toRat * 60 + 0) * 60)
    (hlt : (fa.toRat * 60 + 0) * 60 < 2 ^ 64) :
    parsemeL (A ++ suf) =
      .ok (round ((fa.toRat * 60 + 0) * 60 * 1000000000)).toNat := by
  simp only [List.mem_cons, List.not_mem_nil, or_false] at hsuf
  have hda := parse_f64L_den_pos _ _ hfa
  have hcomb : combine (.num fa) (.num (UFrac.ofNat 0)) =
      .ok (round ((fa.toRat * 60 + 0) * 60 * 1000000000)).toNat := by
    have hc := combine_ok fa (UFrac.ofNat 0) hda
      (by norm_num [UFrac.ofNat]) hx1 hx2 hx3 hnt
      (by rw [toRat_ofNat_zero]; exact h0)
      (by rw [toRat_ofNat_zero]; exact hlt)
    rwa [toRat_ofNat_zero] at hc
  have hnocol : ':' ∉ A ++ suf := by
    intro hc
    rcases List.mem_append.mp hc with hc | hc
    · exact hcol hc
    · rcases hsuf with rfl | rfl | rfl <;> revert hc <;> decide
  rcases hsuf with rfl | rfl | rfl
  · simp only [parsemeL, splitOnceColon_of_not_mem _ hnocol,
      stripSuffix_append A "h".data, Option.some_orElse, hfa]
    exact hcomb
  · have hs1 : stripSuffix (A ++ "hours".data) "h".data = none :=
      stripSuffix_none_of _ _ (fun C =>
        append_suffix_ne _ _ _ _ 1 (by decide) (by decide) (by decide))
    simp only [parsemeL, splitOnceColon_of_not_mem _ hnocol, hs1,
      Option.none_orElse, stripSuffix_append A "hours".data,
      Option.some_orElse, hfa]
    exact hcomb
  · have hs1 : stripSuffix (A ++ "hour".data) "h".data = none :=
      stripSuffix_none_of _ _ (fun C =>
        append_suffix_ne _ _ _ _ 1 (by decide) (by decide) (by decide))
    have hs2 : stripSuffix (A ++ "hour".data) "hours".data = none :=
      stripSuffix_none_of _ _ (fun C =>
        append_suffix_ne _ _ _ _ 1 (by decide) (by decide) (by decide))
    simp only [parsemeL, splitOnceColon_of_not_mem _ hnocol, hs1, hs2,
      Option.none_orElse, stripSuffix_append A "hour".data,
      Option.some_orElse, hfa]
    exact hcomb

theorem parseme_minute_suffix_ok (A suf : List Char) (fm : UFrac)
    (hsuf : suf ∈ ["m".data, "minutes".data, "minute".data]) (hcol : ':' ∉ A)
    (hfm : parse_f64L (trimL A) = some (.num fm))
    (hx1 : flRound ((UFrac.ofNat 0).mulNat 60) =
      .num ((UFrac.ofNat 0).mulNat 60))
    (hx2 : flRound (((UFrac.ofNat 0).mulNat 60).add fm) =
      .num (((UFrac.ofNat 0).mulNat 60).add fm))
    (hx3 : flRound ((((UFrac.ofNat 0).mulNat 60).add fm).mulNat 60) =
      .num ((((UFrac.ofNat 0).mulNat 60).add fm).mulNat 60))
    (hnt : (2 * (((((UFrac.ofNat 0).mulNat 60).add fm).mulNat 60).num.toNat *
        1000000000)) %
        (2 * ((((UFrac.ofNat 0).mulNat 60).add fm).mulNat 60).den) ≠
      ((((UFrac.ofNat 0).mulNat 60).add fm).mulNat 60).den)
    (h0 : 0 ≤ (0 * 60 + fm.toRat) * 60)
    (hlt : (0 * 60 + fm.toRat) * 60 < 2 ^ 64) :
    parsemeL (A ++ suf) =
      .ok (round ((0 * 60 + fm.toRat) * 60 * 1000000000)).toNat := by
  simp only [List.mem_cons, List.not_mem_nil, or_false] at hsuf
  have hdm := parse_f64L_den_pos _ _ hfm
  have hcomb : combine (.num (UFrac.ofNat 0)) (.num fm) =
      .ok (round ((0 * 60 + fm.toRat) * 60 * 1000000000)).toNat := by
    have hc := combine_ok (UFrac.ofNat 0) fm (by norm_num [UFrac.ofNat]) hdm
      hx1 hx2 hx3 hnt
      (by rw [toRat_ofNat_zero]; exact h0)
      (by rw [toRat_ofNat_zero]; exact hlt)
    rwa [toRat_ofNat_zero] at hc
  have hnocol : ':' ∉ A ++ suf := by
    intro hc
    rcases List.mem_append.mp hc with hc | hc
    · exact hcol hc
    · rcases hsuf with rfl | rfl | rfl <;> revert hc <;> decide
  rcases hsuf with rfl | rfl | rfl
  · have hs1 : stripSuffix (A ++ "m".data) "h".data = none :=
      stripSuffix_none_of _ _ (fun C =>
        append_suffix_ne _ _ _ _ 1 (by decide) (by decide) (by decide))
    have hs2 : stripSuffix (A ++ "m".data) "hours".data = none :=
      stripSuffix_none_of _ _ (fun C =>
        append_suffix_ne _ _ _ _ 1 (by decide) (by decide) (by decide))
    have hs3 : stripSuffix (A ++ "m".data) "hour".data = none :=
      stripSuffix_none_of _ _ (fun C =>
        append_suffix_ne _ _ _ _ 1 (by decide) (by decide) (by decide))
    simp only [parsemeL, splitOnceColon_of_not_mem _ hnocol, hs1, hs2, hs3,
      Option.none_orElse, stripSuffix_append A "m".data, Option.some_orElse,
      hfm]
    exact hcomb
  · have hs1 : stripSuffix (A ++ "minutes".data) "h".data = none :=
      stripSuffix_none_of _ _ (fun C =>
        append_suffix_ne _ _ _ _ 1 (by decide) (by decide) (by decide))
    have hs2 : stripSuffix (A ++ "minutes".data) "hours".data = none :=
      stripSuffix_none_of _ _ (fun C =>
        append_suffix_ne _ _ _ _ 2 (by decide) (by decide) (by decide))
    have hs3 : stripSuffix (A ++ "minutes".data) "hour".data = none :=
      stripSuffix_none_of _ _ (fun C =>
        append_suffix_ne _ _ _ _ 1 (by decide) (by decide) (by decide))
    have hs4 : stripSuffix (A ++ "minutes".data) "m".data = none :=
      stripSuffix_none_of _ _ (fun C =>
        append_suffix_ne _ _ _ _ 1 (by decide) (by decide) (by decide))
    simp only [parsemeL, splitOnceColon_of_not_mem _ hnocol, hs1, hs2, hs3,
      hs4, Option.none_orElse, stripSuffix_append A "minutes".data,
      Option.some_orElse, hfm]
    exact hcomb
  · have hs1 : stripSuffix (A ++ "minute".data) "h".data = none :=
      stripSuffix_none_of _ _ (fun C =>
        append_suffix_ne _ _ _ _ 1 (by decide) (by decide) (by decide))
    have hs2 : stripSuffix (A ++ "minute".data) "hours".data = none :=
      stripSuffix_none_of _ _ (fun C =>
        append_suffix_ne _ _ _ _ 1 (by decide) (by decide) (by decide))
    have hs3 : stripSuffix (A ++ "minute".data) "hour".data = none :=
      stripSuffix_none_of _ _ (fun C =>
        append_suffix_ne _ _ _ _ 1 (by decide) (by decide) (by decide))
    have hs4 : stripSuffix (A ++ "minute".data) "m".data = none :=
      stripSuffix_none_of _ _ (fun C =>
        append_suffix_ne _ _ _ _ 1 (by decide) (by decide) (by decide))
    have hs5 : stripSuffix (A ++ "minute".data) "minutes".data = none :=
      stripSuffix_none_of _ _ (fun C =>
        append_suffix_ne _ _ _ _ 1 (by decide) (by decide) (by decide))
    simp only [parsemeL, splitOnceColon_of_not_mem _ hnocol, hs1, hs2, hs3,
      hs4, hs5, Option.none_orElse, stripSuffix_append A "minute".data,
      Option.some_orElse, hfm]
    exact hcomb

theorem parseme_err_shapes (v : List Char) (h : parsemeL v ≠ .err) :
    (∃ A B, v = A ++ ':' :: B ∧ ':' ∉ A ∧
        (parse_f64L (trimL A)).isSome = true ∧
        (parse_f64L (trimL B)).isSome = true) ∨
    (∃ A suf, suf ∈ ["h".data, "hours".data, "hour".data] ∧ v = A ++ suf ∧
        (parse_f64L (trimL A)).isSome = true) ∨
    (∃ A suf, suf ∈ ["m".data, "minutes".data, "minute".data] ∧
        v = A ++ suf ∧ (parse_f64L (trimL A)).isSome = true) := by
  rw [parsemeL] at h
  rcases hsp : splitOnceColon v with _ | ⟨a, b⟩
  · simp only [hsp] at h
    rcases h1 : stripSuffix v "h".data with _ | A
    case some =>
      right; left
      refine ⟨A, "h".data, by simp, (stripSuffix_eq_some _ _ _).mp h1, ?_⟩
      rcases hpa : parse_f64L (trimL A) with _ | fa
      · exact absurd (by simp [h1, hpa]) h
      · simp
    rcases h2 : stripSuffix v "hours".data with _ | A
    case some =>
      right; left
      refine ⟨A, "hours".data, by simp, (stripSuffix_eq_some _ _ _).mp h2, ?_⟩
      rcases hpa : parse_f64L (trimL A) with _ | fa
      · exact absurd (by simp [h1, h2, hpa]) h
      · simp
    rcases h3 : stripSuffix v "hour".data with _ | A
    case some =>
      right; left
      refine ⟨A, "hour".data, by simp, (stripSuffix_eq_some _ _ _).mp h3, ?_⟩
      rcases hpa : parse_f64L (trimL A) with _ | fa
      · exact absurd (by simp [h1, h2, h3, hpa]) h
      · simp
    rcases h4 : stripSuffix v "m".data with _ | A
    case some =>
      right; right
      refine ⟨A, "m".data, by simp, (stripSuffix_eq_some _ _ _).mp h4, ?_⟩
      rcases hpa : parse_f64L (trimL A) with _ | fa
      · exact absurd (by simp [h1, h2, h3, h4, hpa]) h
      · simp
    rcases h5 : stripSuffix v "minutes".data with _ | A
    case some =>
      right; right
      refine ⟨A, "minutes".data, by simp,
        (stripSuffix_eq_some _ _ _).mp h5, ?_⟩
      rcases hpa : parse_f64L (trimL A) with _ | fa
      · exact absurd (by simp [h1, h2, h3, h4, h5, hpa]) h
      · simp
    rcases h6 : stripSuffix v "minute".data with _ | A
    case some =>
      right; right
      refine ⟨A, "minute".data, by simp,
        (stripSuffix_eq_some _ _ _).mp h6, ?_⟩
      rcases hpa : parse_f64L (trimL A) with _ | fa
      · exact absurd (by simp [h1, h2, h3, h4, h5, h6, hpa]) h
      · simp
    exact absurd (by simp [h1, h2, h3, h4, h5, h6]) h
  · simp only [hsp] at h
    obtain ⟨hv, hna⟩ := splitOnceColon_eq_some v a b hsp
    left
    rcases hpa : parse_f64L (trimL a) with _ | fa
    · exact absurd (by simp [hpa]) h
    rcases hpb : parse_f64L (trimL b) with _ | fb
    · exact absurd (by simp [hpa, hpb]) h
    · exact ⟨a, b, hv, hna, by simp [hpa], by simp [hpb]⟩

/-- C7 as amended: `parseme` accepts exactly the three claimed input
shapes (split at the first colon; or a trailing `h`/`hours`/`hour`
suffix; or a trailing `m`/`minutes`/`minute` suffix; components trimmed
and parsed as floating-point numbers), and for every accepted input
whose finite non-negative value `(hours*60+minutes)*60` is below `2^64`
seconds, **whose three `f64` operations are exact** (their exact results
lie on the binary64 grid — the `flRound` hypotheses; in general each
operation rounds to the nearest double first) and whose nanosecond
conversion is not an exact half-tie, the result is that value in
seconds **rounded to the nearest nanosecond** — sub-second precision is
kept, `parseme` does not round to whole seconds. -/
theorem C7_shapes_and_value :
    (∀ (A B : List Char) (fa fb : UFrac), ':' ∉ A →
        parse_f64L (trimL A) = some (.num fa) →
        parse_f64L (trimL B) = some (.num fb) →
        flRound (fa.mulNat 60) = .num (fa.mulNat 60) →
        flRound ((fa.mulNat 60).add fb) = .num ((fa.mulNat 60).add fb) →
        flRound (((fa.mulNat 60).add fb).mulNat 60) =
          .num (((fa.mulNat 60).add fb).mulNat 60) →
        (2 * ((((fa.mulNat 60).add fb).mulNat 60).num.toNat *
            1000000000)) % (2 * (((fa.mulNat 60).add fb).mulNat 60).den) ≠
          (((fa.mulNat 60).add fb).mulNat 60).den →
        0 ≤ (fa.toRat * 60 + fb.toRat) * 60 →
        (fa.toRat * 60 + fb.toRat) * 60 < 2 ^ 64 →
        parsemeL (A ++ ':' :: B) =
          .ok (round ((fa.toRat * 60 + fb.toRat) * 60 * 1000000000)).toNat) ∧
    (∀ (A suf : List Char) (fa : UFrac),
        suf ∈ ["h".data, "hours".data, "hour".data] → ':' ∉ A →
        parse_f64L (trimL A) = some (.num fa) →
        flRound (fa.mulNat 60) = .num (fa.mulNat 60) →
        flRound ((fa.mulNat 60).add (UFrac.ofNat 0)) =
          .num ((fa.mulNat 60).add (UFrac.ofNat 0)) →
        flRound (((fa.mulNat 60).add (UFrac.ofNat 0)).mulNat 60) =
          .num (((fa.mulNat 60).add (UFrac.ofNat 0)).mulNat 60) →
        (2 * ((((fa.mulNat 60).add (UFrac.ofNat 0)).mulNat 60).num.toNat *
            1000000000)) %
            (2 * (((fa.mulNat 60).add (UFrac.ofNat 0)).mulNat 60).den) ≠
          (((fa.mulNat 60).add (UFrac.ofNat 0)).mulNat 60).den →
        0 ≤ (fa.toRat * 60 + 0) * 60 → (fa.toRat * 60 + 0) * 60 < 2 ^ 64 →
        parsemeL (A ++ suf) =
          .ok (round ((fa.toRat * 60 + 0) * 60 * 1000000000)).toNat) ∧
    (∀ (A suf : List Char) (fm : UFrac),
        suf ∈ ["m".data, "minutes".data, "minute".data] → ':' ∉ A →
        parse_f64L (trimL A) = some (.num fm) →
        flRound ((UFrac.ofNat 0).mulNat 60) =
          .num ((UFrac.ofNat 0).mulNat 60) →
        flRound (((UFrac.ofNat 0).mulNat 60).add fm) =
          .num (((UFrac.ofNat 0).mulNat 60).add fm) →
        flRound ((((UFrac.ofNat 0).mulNat 60).add fm).mulNat 60) =
          .num ((((UFrac.ofNat 0).mulNat 60).add fm).mulNat 60) →
        (2 * (((((UFrac.ofNat 0).mulNat 60).add fm).mulNat 60).num.toNat *
            1000000000)) %
            (2 * ((((UFrac.ofNat 0).mulNat 60).add fm).mulNat 60).den) ≠
          ((((UFrac.ofNat 0).mulNat 60).add fm).mulNat 60).den →
        0 ≤ (0 * 60 + fm.toRat) * 60 → (0 * 60 + fm.toRat) * 60 < 2 ^ 64 →
        parsemeL (A ++ suf) =
          .ok (round ((0 * 60 + fm.toRat) * 60 * 1000000000)).toNat) ∧
    (∀ v : List Char, parsemeL v ≠ .err →
        (∃ A B, v = A ++ ':' :: B ∧ ':' ∉ A ∧
            (parse_f64L (trimL A)).isSome = true ∧
            (parse_f64L (trimL B)).isSome = true) ∨
        (∃ A suf, suf ∈ ["h".data, "hours".data, "hour".data] ∧
            v = A ++ suf ∧ (parse_f64L (trimL A)).isSome = true) ∨
        (∃ A suf, suf ∈ ["m".data, "minutes".data, "minute".data] ∧
            v = A ++ suf ∧ (parse_f64L (trimL A)).isSome = true)) :=
  ⟨parseme_colon_ok, parseme_hour_suffix_ok, parseme_minute_suffix_ok,
    parseme_err_shapes⟩

/-- C7 counterexample: `parse("0.0625m")` (a sixteenth of a minute,
3.75 seconds) yields 3750000000 nanoseconds — not a whole number of
seconds, and in particular not the claimed `round(3.75) = 4` seconds. -/
theorem C7_counterexample :
    parseme "0.0625m" = .ok 3750000000 ∧
      3750000000 % 1000000000 ≠ 0 ∧
      (3750000000 : Nat) ≠ 4 * 1000000000 := by
  refine ⟨by decide, by decide, by decide⟩

/-- Witness for C7 as amended, instantiating all four parts at concrete
inputs ("1:30", "2hours", "0.0625m", and the accepted "1:30" for the
completeness part). -/
theorem C7_witness :
    parsemeL ("1".data ++ ':' :: "30".data) =
      .ok (round ((UFrac.toRat ⟨1, 1⟩ * 60 + UFrac.toRat ⟨30, 1⟩) * 60 *
        1000000000)).toNat ∧
    parsemeL ("2".data ++ "hours".data) =
      .ok (round ((UFrac.toRat ⟨2, 1⟩ * 60 + 0) * 60 * 1000000000)).toNat ∧
    parsemeL ("0.0625".data ++ "m".data) =
      .ok (round ((0 * 60 + UFrac.toRat ⟨625, 10000⟩) * 60 *
        1000000000)).toNat ∧
    ((∃ A B, "1:30".data = A ++ ':' :: B ∧ ':' ∉ A ∧
        (parse_f64L (trimL A)).isSome = true ∧
        (parse_f64L (trimL B)).isSome = true) ∨
      (∃ A suf, suf ∈ ["h".data, "hours".data, "hour".data] ∧
          "1:30".data = A ++ suf ∧ (parse_f64L (trimL A)).isSome = true) ∨
      (∃ A suf, suf ∈ ["m".data, "minutes".data, "minute".data] ∧
          "1:30".data = A ++ suf ∧
          (parse_f64L (trimL A)).isSome = true)) :=
  ⟨C7_shapes_and_value.1 "1".data "30".data ⟨1, 1⟩ ⟨30, 1⟩ (by decide)
      (by decide) (by decide) (by decide) (by decide) (by decide) (by decide)
      (by norm_num [UFrac.toRat]) (by norm_num [UFrac.toRat]),
    C7_shapes_and_value.2.1 "2".data "hours".data ⟨2, 1⟩ (by decide)
      (by decide) (by decide) (by decide) (by decide) (by decide) (by decide)
      (by norm_num [UFrac.toRat]) (by norm_num [UFrac.toRat]),
    C7_shapes_and_value.2.2.1 "0.0625".data "m".data ⟨625, 10000⟩ (by decide)
      (by decide) (by decide) (by decide) (by decide) (by decide) (by decide)
      (by norm_num [UFrac.toRat]) (by norm_num [UFrac.toRat]),
    C7_shapes_and_value.2.2.2 "1:30".data (by decide)⟩

end Breaks
